import Mathlib

/-!
Verification of the skeletal pose and retargeting core of mesh2motion-app.

The numeric algebra (`Vec3`, `Quat`, `Transform`), the pose snapshot
(`Joint`, `Pose`) and the chain operators are translated from the
TypeScript sources into Lean over a generic linearly ordered field `α`.
The program's `number` type (IEEE doubles) is modelled by exact field
arithmetic; claims are stated at `α = ℚ` so that concrete runs are
decidable, except for `Quat.fromSwing` whose source calls `Math.sqrt`,
`Math.sin`, `Math.cos` and `Math.PI`: those ambient functions are passed
as explicit parameters and are instantiated with `Real.sqrt`, `Real.sin`,
`Real.cos` and `Real.pi` where that claim is settled.

JavaScript behaviours that matter to the claims are kept:
an out-of-range array read yields `undefined` (modelled by `JSRef` /
`Option`), and a member access on `undefined` or `null` throws a
`TypeError` (modelled by `Except String`).
-/

set_option maxHeartbeats 1600000
set_option linter.unusedSectionVars false

namespace M2M

/-- Vec3 from `Vec3.ts`: three numeric components. -/
structure Vec3 (α : Type) where
  x : α
  y : α
  z : α
deriving DecidableEq

/-- Quat from `Quat.ts`: components `[0..3] = (x, y, z, w)`. -/
structure Quat (α : Type) where
  x : α
  y : α
  z : α
  w : α
deriving DecidableEq

/-- Transform from `Transform.ts`: rotation, position, non-uniform scale. -/
structure Transform (α : Type) where
  rot : Quat α
  pos : Vec3 α
  scl : Vec3 α
deriving DecidableEq

variable {α : Type} [LinearOrderedField α]

/-- Default `new Vec3()` is the zero vector. -/
def Vec3.zero : Vec3 α := ⟨0, 0, 0⟩

/-- Squared length of a vector (`lenSqr` getter in `Vec3.ts`). -/
def Vec3.lenSqr (v : Vec3 α) : α := v.x * v.x + v.y * v.y + v.z * v.z

/-- Static `Vec3.dot` from `Vec3.ts`. -/
def Vec3.dot (a b : Vec3 α) : α := a.x * b.x + a.y * b.y + a.z * b.z

/-- `Vec3.fromSub(a, b)` componentwise difference. -/
def Vec3.fromSub (a b : Vec3 α) : Vec3 α := ⟨a.x - b.x, a.y - b.y, a.z - b.z⟩

/-- `Vec3.fromCross(a, b)` cross product, as written in `Vec3.ts`. -/
def Vec3.fromCross (a b : Vec3 α) : Vec3 α :=
  ⟨a.y * b.z - a.z * b.y, a.z * b.x - a.x * b.z, a.x * b.y - a.y * b.x⟩

/-- Static `Vec3.cross(a, b, out)` from `Vec3.ts`; same arithmetic as `fromCross`. -/
def Vec3.cross (a b : Vec3 α) : Vec3 α :=
  ⟨a.y * b.z - a.z * b.y, a.z * b.x - a.x * b.z, a.x * b.y - a.y * b.x⟩

/-- Componentwise product, used inline by `Transform` for `parent.scale * child.position`. -/
def Vec3.had (a b : Vec3 α) : Vec3 α := ⟨a.x * b.x, a.y * b.y, a.z * b.z⟩

/-- Componentwise sum, used inline by `Transform` for `parent.position + v`. -/
def Vec3.addv (a b : Vec3 α) : Vec3 α := ⟨a.x + b.x, a.y + b.y, a.z + b.z⟩

/-- Scalar multiple of a vector (used to state uniform-scale facts). -/
def Vec3.smul (c : α) (v : Vec3 α) : Vec3 α := ⟨c * v.x, c * v.y, c * v.z⟩

/-- Componentwise negation (`b = -a` arguments of `fromSwing`). -/
def Vec3.neg (v : Vec3 α) : Vec3 α := ⟨-v.x, -v.y, -v.z⟩

/-- `Vec3.norm()`: normalize in place unless the magnitude is zero.
The ambient `Math.sqrt` is passed as `sqrtf`. -/
def Vec3.norm (sqrtf : α → α) (v : Vec3 α) : Vec3 α :=
  let mag := sqrtf (v.x * v.x + v.y * v.y + v.z * v.z)
  if mag = 0 then v
  else ⟨v.x * (1 / mag), v.y * (1 / mag), v.z * (1 / mag)⟩

/-- The `len` getter of `Vec3.ts`, with `Math.sqrt` passed as `sqrtf`. -/
def Vec3.len (sqrtf : α → α) (v : Vec3 α) : α :=
  sqrtf (v.x * v.x + v.y * v.y + v.z * v.z)

/-- `Vec3.fromQuat(quat, vec)` of `Vec3.ts`: rotate `vec` by `quat` using the
two-cross-products expansion, exactly as in the source. -/
def Vec3.fromQuat (q : Quat α) (v : Vec3 α) : Vec3 α :=
  let x1 := q.y * v.z - q.z * v.y
  let y1 := q.z * v.x - q.x * v.z
  let z1 := q.x * v.y - q.y * v.x
  let x2 := q.w * x1 + q.y * z1 - q.z * y1
  let y2 := q.w * y1 + q.z * x1 - q.x * z1
  let z2 := q.w * z1 + q.x * y1 - q.y * x1
  ⟨v.x + 2 * x2, v.y + 2 * y2, v.z + 2 * z2⟩

/-- `new Quat()` identity quaternion. -/
def Quat.identityQ : Quat α := ⟨0, 0, 0, 1⟩

/-- Squared magnitude of a quaternion (the `dot` local of `Quat.invert`). -/
def Quat.normSq (q : Quat α) : α := q.x * q.x + q.y * q.y + q.z * q.z + q.w * q.w

/-- `Quat.mul(q)`: multiply `q` onto `self` (Hamilton product `self * q`). -/
def Quat.mul (a q : Quat α) : Quat α :=
  ⟨a.x * q.w + a.w * q.x + a.y * q.z - a.z * q.y,
   a.y * q.w + a.w * q.y + a.z * q.x - a.x * q.z,
   a.z * q.w + a.w * q.z + a.x * q.y - a.y * q.x,
   a.w * q.w - a.x * q.x - a.y * q.y - a.z * q.z⟩

/-- `Quat.pmul(q)`: pre-multiply `q` onto `self` (`q * self`). -/
def Quat.pmul (b q : Quat α) : Quat α :=
  ⟨q.x * b.w + q.w * b.x + q.y * b.z - q.z * b.y,
   q.y * b.w + q.w * b.y + q.z * b.x - q.x * b.z,
   q.z * b.w + q.w * b.z + q.x * b.y - q.y * b.x,
   q.w * b.w - q.x * b.x - q.y * b.y - q.z * b.z⟩

/-- `Quat.invert()` from `Quat.ts`: on a zero-magnitude quaternion the result
is the all-zero quaternion (with a console warning); otherwise the conjugate
is scaled by the reciprocal of the squared magnitude. -/
def Quat.invert (q : Quat α) : Quat α :=
  let dot := q.x * q.x + q.y * q.y + q.z * q.z + q.w * q.w
  if dot = 0 then ⟨0, 0, 0, 0⟩
  else
    ⟨-q.x * (1 / dot), -q.y * (1 / dot), -q.z * (1 / dot), q.w * (1 / dot)⟩

/-- `Quat.pmulInvert(q)` from `Quat.ts`: invert `q` (inline, zero quaternion
degenerates to all-zero), then pre-multiply it onto `self`. -/
def Quat.pmulInvert (b q : Quat α) : Quat α :=
  let dot := q.x * q.x + q.y * q.y + q.z * q.z + q.w * q.w
  let a : Quat α :=
    if dot = 0 then ⟨0, 0, 0, 0⟩
    else ⟨-q.x * (1 / dot), -q.y * (1 / dot), -q.z * (1 / dot), q.w * (1 / dot)⟩
  ⟨a.x * b.w + a.w * b.x + a.y * b.z - a.z * b.y,
   a.y * b.w + a.w * b.y + a.z * b.x - a.x * b.z,
   a.z * b.w + a.w * b.z + a.x * b.y - a.y * b.x,
   a.w * b.w - a.x * b.x - a.y * b.y - a.z * b.z⟩

/-- `Quat.norm()` from `Quat.ts`, with `Math.sqrt` passed as `sqrtf`. -/
def Quat.norm (sqrtf : α → α) (q : Quat α) : Quat α :=
  let len := q.x * q.x + q.y * q.y + q.z * q.z + q.w * q.w
  if 0 < len then
    let inv := 1 / sqrtf len
    ⟨q.x * inv, q.y * inv, q.z * inv, q.w * inv⟩
  else q

/-- `Quat.fromAxisAngle(axis, rad)` from `Quat.ts`; `Math.sin`/`Math.cos`
are passed as `sinf`/`cosf`. -/
def Quat.fromAxisAngle (sinf cosf : α → α) (axis : Vec3 α) (rad : α) : Quat α :=
  let half := rad * (1 / 2)
  let s := sinf half
  ⟨axis.x * s, axis.y * s, axis.z * s, cosf half⟩

/-- `Quat.fromSwing(a, b)` from `Quat.ts`: shortest swing from unit vector `a`
to unit vector `b`, with the dot `< -0.999999` opposite-direction branch and
its global-X then global-Y perpendicular-axis fallback; `Math.sqrt`,
`Math.sin`, `Math.cos`, `Math.PI` are passed as `sqrtf`, `sinf`, `cosf`, `piv`. -/
def Quat.fromSwing (sqrtf sinf cosf : α → α) (piv : α) (a b : Vec3 α) : Quat α :=
  let dot := Vec3.dot a b
  if dot < -(999999 / 1000000) then
    let tmp := Vec3.fromCross ⟨-1, 0, 0⟩ a
    let tmp2 := if Vec3.len sqrtf tmp < 1 / 1000000 then Vec3.fromCross ⟨0, 1, 0⟩ a else tmp
    Quat.fromAxisAngle sinf cosf (Vec3.norm sqrtf tmp2) piv
  else if (999999 / 1000000 : α) < dot then
    ⟨0, 0, 0, 1⟩
  else
    let v := Vec3.cross a b
    Quat.norm sqrtf ⟨v.x, v.y, v.z, 1 + dot⟩

/-- Quaternion conjugate, as the spec words the inversion formula
(`q⁻¹ = conjugate(q) / |q|²`). -/
def Quat.conj (q : Quat α) : Quat α := ⟨-q.x, -q.y, -q.z, q.w⟩

/-- Componentwise scalar multiple of a quaternion, for the spec's division
by the squared magnitude. -/
def Quat.scale (c : α) (q : Quat α) : Quat α :=
  ⟨c * q.x, c * q.y, c * q.z, c * q.w⟩

/-- File-local `qMul(a, b, out)` of `Transform.ts`. -/
def qMul (a b : Quat α) : Quat α :=
  ⟨a.x * b.w + a.w * b.x + a.y * b.z - a.z * b.y,
   a.y * b.w + a.w * b.y + a.z * b.x - a.x * b.z,
   a.z * b.w + a.w * b.z + a.x * b.y - a.y * b.x,
   a.w * b.w - a.x * b.x - a.y * b.y - a.z * b.z⟩

/-- File-local `qInvert(q, out)` of `Transform.ts`: zero-magnitude input gives
the all-zero quaternion, otherwise the conjugate over the squared magnitude. -/
def qInvert (q : Quat α) : Quat α :=
  let dot := q.x * q.x + q.y * q.y + q.z * q.z + q.w * q.w
  if dot = 0 then ⟨0, 0, 0, 0⟩
  else ⟨-q.x * (1 / dot), -q.y * (1 / dot), -q.z * (1 / dot), q.w * (1 / dot)⟩

/-- File-local `qTransform(q, v, out)` of `Transform.ts`: rotate `v` by `q`. -/
def qTransform (q : Quat α) (v : Vec3 α) : Vec3 α :=
  let x1 := q.y * v.z - q.z * v.y
  let y1 := q.z * v.x - q.x * v.z
  let z1 := q.x * v.y - q.y * v.x
  let x2 := q.w * x1 + q.y * z1 - q.z * y1
  let y2 := q.w * y1 + q.z * x1 - q.x * z1
  let z2 := q.w * z1 + q.x * y1 - q.y * x1
  ⟨v.x + 2 * x2, v.y + 2 * y2, v.z + 2 * z2⟩

/-- `new Transform()`: identity rotation, zero position, unit scale. -/
def Transform.identityT : Transform α := ⟨⟨0, 0, 0, 1⟩, ⟨0, 0, 0⟩, ⟨1, 1, 1⟩⟩

/-- `Transform.fromMul(parent, child)` from `Transform.ts`:
position `parent.pos + qTransform(parent.rot, parent.scl ⊙ child.pos)`,
scale `parent.scl ⊙ child.scl`, rotation `qMul(parent.rot, child.rot)`. -/
def Transform.fromMul (tp tc : Transform α) : Transform α :=
  ⟨qMul tp.rot tc.rot,
   Vec3.addv tp.pos (qTransform tp.rot (Vec3.had tp.scl tc.pos)),
   Vec3.had tp.scl tc.scl⟩

/-- `Transform.mul(tran)` from `Transform.ts`: compose `tran` under `self`
(`self` acts as the parent). Same arithmetic as `fromMul self tran`. -/
def Transform.mul (self tran : Transform α) : Transform α :=
  ⟨qMul self.rot tran.rot,
   Vec3.addv self.pos (qTransform self.rot (Vec3.had self.scl tran.pos)),
   Vec3.had self.scl tran.scl⟩

/-- `Transform.pmul(tran)` from `Transform.ts`: compose `self` under `tran`
(`tran` acts as the parent). Same arithmetic as `fromMul tran self`. -/
def Transform.pmul (self tran : Transform α) : Transform α :=
  ⟨qMul tran.rot self.rot,
   Vec3.addv tran.pos (qTransform tran.rot (Vec3.had tran.scl self.pos)),
   Vec3.had tran.scl self.scl⟩

/-- `Transform.fromInvert(t)` from `Transform.ts`: invert rotation with
`qInvert`, reciprocal scale, and position `qTransform(rotInv, -pos ⊙ sclInv)`. -/
def Transform.fromInvert (t : Transform α) : Transform α :=
  let rot := qInvert t.rot
  let scl : Vec3 α := ⟨1 / t.scl.x, 1 / t.scl.y, 1 / t.scl.z⟩
  let pos := qTransform rot ⟨-t.pos.x * scl.x, -t.pos.y * scl.y, -t.pos.z * scl.z⟩
  ⟨rot, pos, scl⟩

/-- Componentwise closeness of two scalars within tolerance `tol`
(floating-point tolerance in the spec). -/
def approxEq (tol a b : α) : Prop := |a - b| ≤ tol

/-- Two transforms agree within `tol` in every rotation, position and scale
component. -/
def Transform.approx (tol : α) (s t : Transform α) : Prop :=
  approxEq tol s.rot.x t.rot.x ∧ approxEq tol s.rot.y t.rot.y ∧
  approxEq tol s.rot.z t.rot.z ∧ approxEq tol s.rot.w t.rot.w ∧
  approxEq tol s.pos.x t.pos.x ∧ approxEq tol s.pos.y t.pos.y ∧
  approxEq tol s.pos.z t.pos.z ∧
  approxEq tol s.scl.x t.scl.x ∧ approxEq tol s.scl.y t.scl.y ∧
  approxEq tol s.scl.z t.scl.z

instance (tol : α) (a b : α) : Decidable (approxEq tol a b) := by
  unfold approxEq
  infer_instance

instance (tol : α) (s t : Transform α) : Decidable (Transform.approx tol s t) := by
  unfold Transform.approx
  infer_instance

/-- A transform is admissible for re-association when its rotation quaternion
is unit and its scale is uniform. Skeleton snapshots taken from real rigs have
unit rotations and uniform (usually unit) scales. -/
def Transform.nice (t : Transform α) : Prop :=
  Quat.normSq t.rot = 1 ∧ t.scl.y = t.scl.x ∧ t.scl.z = t.scl.x

instance (t : Transform α) : Decidable t.nice := by
  unfold Transform.nice
  infer_instance

/-! The pose snapshot: `Joint.ts` and `Pose.ts`.

TypeScript mutation is modelled by returning updated values; an uncaught
JavaScript `TypeError` (member access on `undefined`/`null`) is an
`Except.error "TypeError"`. A JS array read `a[i]` out of range evaluates to
`undefined`, never `null` — `JSRef` keeps the two apart because
`Pose.getWorld` compares its joint strictly against `null` only. -/

/-- A JavaScript reference that can be an object, `null`, or `undefined`. -/
inductive JSRef (β : Type) where
  | obj (b : β)
  | null
  | undefined
deriving DecidableEq

/-- JS array indexing `a[i]` with an integer index: `some` element when
`0 ≤ i < length`, otherwise `undefined` (`none`). -/
def listGetInt {β : Type} (js : List β) (i : Int) : Option β :=
  if 0 ≤ i then js[i.toNat]? else none

/-- Joint from `Joint.ts`. The `local` field is called `localT` because
`local` is a Lean keyword. -/
structure Joint (α : Type) where
  name : String
  index : Int
  pindex : Int
  children : List Int
  localT : Transform α
  world : Transform α
deriving DecidableEq

/-- `Joint.clone()` copies every field into a fresh joint. -/
def Joint.clone (j : Joint α) : Joint α :=
  ⟨j.name, j.index, j.pindex, j.children, j.localT, j.world⟩

/-- Pose from `Pose.ts`: optional source pose, ordered joints, root offset and
pose offset. (The `nameIdx` map only serves string lookups, which no claim
exercises, so it is not carried.) An inductive is used because the
`srcPose` field nests `Pose` inside itself. -/
inductive Pose (α : Type) where
  | mk (srcPose : Option (Pose α)) (joints : List (Joint α))
      (rootOffset : Transform α) (poseOffset : Transform α)

/-- Field accessor for `srcPose`. -/
def Pose.srcPose : Pose α → Option (Pose α)
  | .mk s _ _ _ => s

/-- Field accessor for `joints`. -/
def Pose.joints : Pose α → List (Joint α)
  | .mk _ j _ _ => j

/-- Field accessor for `rootOffset`. -/
def Pose.rootOffset : Pose α → Transform α
  | .mk _ _ r _ => r

/-- Field accessor for `poseOffset`. -/
def Pose.poseOffset : Pose α → Transform α
  | .mk _ _ _ o => o

/-- `Pose.getJoint(o)` for a numeric argument: `this.joints[o]`. An
out-of-range read yields `undefined` — not `null`. -/
def Pose.getJoint (p : Pose α) (o : Int) : JSRef (Joint α) :=
  match listGetInt p.joints o with
  | some j => .obj j
  | none => .undefined

/-- `Pose.clone()`: copy offsets, clone every joint, and record
`srcPose = this.srcPose ?? this`. -/
def Pose.clone (p : Pose α) : Pose α :=
  .mk (some (p.srcPose.getD p)) (p.joints.map Joint.clone) p.rootOffset p.poseOffset

/-- `clone` iterated: `cloneIter p n` is `p` cloned `n + 1` times. -/
def Pose.cloneIter (p : Pose α) : Nat → Pose α
  | 0 => p.clone
  | n + 1 => (p.cloneIter n).clone

/-- The copy loop of `Pose.reset()`: each joint takes the local transform of
the source joint at the same index; a missing source joint is a read of
`undefined.local`, a thrown `TypeError`. -/
def resetJoints : List (Joint α) → List (Joint α) → Except String (List (Joint α))
  | [], _ => .ok []
  | _ :: _, [] => .error "TypeError"
  | j :: js, s :: ss => (resetJoints js ss).map fun r => { j with localT := s.localT } :: r

/-- `Pose.reset()`: with no `srcPose` it only reports an error and changes
nothing; otherwise every joint's local transform is copied back from the
joint of `srcPose` at the same index. -/
def Pose.reset (p : Pose α) : Except String (Pose α) :=
  match p.srcPose with
  | none => .error "Pose.reset - No source available for resetting"
  | some src =>
    (resetJoints p.joints src.joints).map fun js =>
      .mk p.srcPose js p.rootOffset p.poseOffset

/-- `Pose.setRot(i, rot)`: overwrite the rotation of joint `i`'s local
transform. An invalid index reads `.local` of `undefined` and throws. -/
def Pose.setRot (p : Pose α) (i : Int) (rot : Quat α) : Except String (Pose α) :=
  match listGetInt p.joints i with
  | none => .error "TypeError"
  | some j =>
    .ok (.mk p.srcPose
      (p.joints.set i.toNat { j with localT := { j.localT with rot := rot } })
      p.rootOffset p.poseOffset)

/-- The parent-walk loop of `Pose.getWorld`: while the current joint has a
parent, step to it and pre-multiply its local transform onto the accumulator.
The TypeScript `while` loop never terminates on a cyclic parent chain; the
walk carries fuel and reports such a cycle as an error, which well-formed
poses never reach. -/
def Pose.walk (js : List (Joint α)) : Nat → Joint α → Transform α → Except String (Transform α)
  | fuel, j, out =>
    if j.pindex = -1 then .ok out
    else
      match listGetInt js j.pindex with
      | none => .error "TypeError"
      | some pj =>
        match fuel with
        | 0 => .error "loop"
        | f + 1 => Pose.walk js f pj (Transform.pmul out pj.localT)

/-- `Pose.getWorld(joint_idx, out)`: `-1` returns
`fromMul(rootOffset, poseOffset)` directly; otherwise the joint fetched by
`getJoint` is checked strictly against `null` (an `undefined` result from a
numeric out-of-range index slips past that check and throws on
`joint.local`), then the walk to the root runs and the pose and root offsets
are pre-multiplied on. -/
def Pose.getWorld (p : Pose α) (joint_idx : Int)
    (out : Transform α := Transform.identityT) : Except String (Transform α) :=
  if joint_idx = -1 then .ok (Transform.fromMul p.rootOffset p.poseOffset)
  else
    match p.getJoint joint_idx with
    | .null => .ok out
    | .undefined => .error "TypeError"
    | .obj j =>
      (Pose.walk p.joints p.joints.length j j.localT).map fun w =>
        Transform.pmul (Transform.pmul w p.poseOffset) p.rootOffset

/-- The single in-order pass of `Pose.updateWorld()`: `done` holds the
already-processed prefix, `todo` the rest; a joint with `pindex = -1` gets
`fromMul(rootOffset, poseOffset).mul(local)`, every other joint reads
`joints[pindex].world` from the current array state, exactly as the in-place
loop does. An out-of-range `pindex` reads `.world` of `undefined`. -/
def updateWorldGo (ro po : Transform α) :
    List (Joint α) → List (Joint α) → Except String (List (Joint α))
  | done, [] => .ok done
  | done, j :: rest =>
    if j.pindex = -1 then
      updateWorldGo ro po
        (done ++ [{ j with world := Transform.mul (Transform.fromMul ro po) j.localT }]) rest
    else
      match listGetInt (done ++ j :: rest) j.pindex with
      | none => .error "TypeError"
      | some pj =>
        updateWorldGo ro po
          (done ++ [{ j with world := Transform.fromMul pj.world j.localT }]) rest

/-- `Pose.updateWorld()`: run the pass over all joints. -/
def Pose.updateWorld (p : Pose α) : Except String (Pose α) :=
  (updateWorldGo p.rootOffset p.poseOffset [] p.joints).map fun js =>
    .mk p.srcPose js p.rootOffset p.poseOffset

/-- Well-formed parent links, as `fromSkeleton` constructs them: every
joint's parent index is `-1` or points to an earlier joint. -/
def Pose.wfParents (p : Pose α) : Prop :=
  ∀ i : Fin p.joints.length,
    (p.joints.get i).pindex = -1 ∨
      (0 ≤ (p.joints.get i).pindex ∧ ((p.joints.get i).pindex).toNat < i.val)

instance (p : Pose α) : Decidable p.wfParents := by
  unfold Pose.wfParents
  infer_instance

/-- Every local transform of the pose, and both offsets, are admissible
(unit rotation, uniform scale). -/
def Pose.niceAll (p : Pose α) : Prop :=
  p.rootOffset.nice ∧ p.poseOffset.nice ∧ ∀ j ∈ p.joints, j.localT.nice

instance (p : Pose α) : Decidable p.niceAll := by
  unfold Pose.niceAll
  infer_instance

/-! Specification of the two world-transform computations of `Pose.ts`.

`updateWorld` computes, top-down and left-associated,
`w(root) = (rootOffset ∘ poseOffset) ∘ local` and `w(j) = w(parent) ∘ local`;
`getWorld` walks bottom-up and right-associated. The recursive function `uw`
below captures the left-associated cached value, `preW` the product of the
ancestors' locals; both carry fuel because an arbitrary joint list could have
forward parent references, and well-formedness makes the fuel irrelevant. -/

/-- The cached world transform `updateWorld` assigns to joint `i`
(fuel-indexed; `fuel > i` suffices on well-formed parent links). -/
def uwGo (js : List (Joint α)) (ro po : Transform α) : Nat → Nat → Transform α
  | 0, _ => Transform.identityT
  | fuel + 1, i =>
    match js[i]? with
    | none => Transform.identityT
    | some j =>
      if j.pindex = -1 then Transform.mul (Transform.fromMul ro po) j.localT
      else Transform.fromMul (uwGo js ro po fuel j.pindex.toNat) j.localT

/-- The cached world transform of joint `i` with adequate fuel. -/
def uw (js : List (Joint α)) (ro po : Transform α) (i : Nat) : Transform α :=
  uwGo js ro po (i + 1) i

/-- Left-associated product of the local transforms of the strict ancestors
of joint `i`, root first (fuel-indexed). -/
def preGo (js : List (Joint α)) : Nat → Nat → Transform α
  | 0, _ => Transform.identityT
  | fuel + 1, i =>
    match js[i]? with
    | none => Transform.identityT
    | some j =>
      if j.pindex = -1 then Transform.identityT
      else
        match js[j.pindex.toNat]? with
        | none => Transform.identityT
        | some pj => Transform.fromMul (preGo js fuel j.pindex.toNat) pj.localT

/-- Ancestor product of joint `i` with adequate fuel. -/
def preW (js : List (Joint α)) (i : Nat) : Transform α := preGo js (i + 1) i

/-- Well-formed parent links on a plain joint list. -/
def WFL (js : List (Joint α)) : Prop :=
  ∀ (i : Nat) (j : Joint α), js[i]? = some j →
    j.pindex = -1 ∨ (0 ≤ j.pindex ∧ j.pindex.toNat < i)

/-- All local transforms of a joint list are admissible. -/
def NiceL (js : List (Joint α)) : Prop := ∀ j ∈ js, j.localT.nice

/-! The chain operators `ChainTwistAdditive` (TypeScript) and `AxisAdditive`
(JavaScript). A `Retargeter` carries a possibly-null target rig with its
chain table and a possibly-null working pose. Reading a missing chain or a
missing first joint throws just as the sources do. -/

/-- One entry of a chain: own joint index, parent joint index, and the twist
reference vector read by `AxisAdditive`. -/
structure RigItem (α : Type) where
  idx : Int
  pidx : Int
  twist : Vec3 α

/-- The target rig: a chain table keyed by symbolic chain name. A lookup of
an absent name is `undefined` (`none`). -/
structure Rig (α : Type) where
  chains : String → Option (List (RigItem α))

/-- The retargeter state the chain operators read. -/
structure Retargeter (α : Type) where
  tarRig : Option (Rig α)
  pose : Option (Pose α)

/-- `ChainTwistAdditive` configuration: chain name and twist angle. -/
structure ChainTwistAdditive (α : Type) where
  chainName : String
  angle : α

/-- `AxisAdditive` configuration: chain name, axis selector, angle. -/
structure AxisAdditive (α : Type) where
  chainName : String
  onAxis : String
  angle : α

/-- `ChainTwistAdditive.apply(rt)`: zero angle or a null target rig returns
immediately; a null pose logs a warning and returns; otherwise the twist axis
runs from the chain start to the chain end, and the rotated world rotation is
converted back to local space and written onto the chain's first joint with
`setRot`. `Math.sqrt`/`Math.sin`/`Math.cos` are passed as parameters. -/
def ChainTwistAdditive.apply (sqrtf sinf cosf : α → α)
    (op : ChainTwistAdditive α) (rt : Retargeter α) :
    Except String (Retargeter α) :=
  if op.angle = 0 then .ok rt
  else
    match rt.tarRig with
    | none => .ok rt
    | some rig =>
      match rig.chains op.chainName with
      | none => .error "TypeError"
      | some ch =>
        match rt.pose with
        | none => .ok rt
        | some pose =>
          match ch.head?, ch.getLast? with
          | some itm0, some itm1 =>
            match pose.getWorld itm0.pidx with
            | .error e => .error e
            | .ok ptran =>
              match listGetInt pose.joints itm0.idx with
              | none => .error "TypeError"
              | some cj =>
                let ctran := Transform.fromMul ptran cj.localT
                match pose.getWorld itm1.idx with
                | .error e => .error e
                | .ok etran =>
                  let axis := Vec3.norm sqrtf (Vec3.fromSub etran.pos ctran.pos)
                  let q := Quat.pmulInvert
                    (Quat.mul (Quat.fromAxisAngle sinf cosf axis op.angle) ctran.rot)
                    ptran.rot
                  match pose.setRot itm0.idx q with
                  | .error e => .error e
                  | .ok pose2 => .ok ⟨rt.tarRig, some pose2⟩
          | _, _ => .error "TypeError"

/-- `AxisAdditive.apply(rt)`: zero angle returns immediately; this operator
has no null guards, so a null rig, missing chain, null pose or empty chain
throws; an axis other than `y` logs an error and returns without mutating;
otherwise the delta rotation around the joint's stored twist axis (rotated
into world space) is written onto the chain's first joint with `setRot`. -/
def AxisAdditive.apply (sinf cosf : α → α) (op : AxisAdditive α)
    (rt : Retargeter α) : Except String (Retargeter α) :=
  if op.angle = 0 then .ok rt
  else
    match rt.tarRig with
    | none => .error "TypeError"
    | some rig =>
      match rig.chains op.chainName with
      | none => .error "TypeError"
      | some ch =>
        match rt.pose with
        | none => .error "TypeError"
        | some pose =>
          match ch.head? with
          | none => .error "TypeError"
          | some itm =>
            match pose.getWorld itm.pidx with
            | .error e => .error e
            | .ok ptran =>
              match listGetInt pose.joints itm.idx with
              | none => .error "TypeError"
              | some cj =>
                let ctran := Transform.fromMul ptran cj.localT
                match op.onAxis with
                | "y" =>
                  let axis := Vec3.fromQuat ctran.rot itm.twist
                  let q := Quat.pmulInvert
                    (Quat.mul (Quat.fromAxisAngle sinf cosf axis op.angle) ctran.rot)
                    ptran.rot
                  match pose.setRot itm.idx q with
                  | .error e => .error e
                  | .ok pose2 => .ok ⟨rt.tarRig, some pose2⟩
                | _ => .ok rt

/-- After a pose update, only the local rotation of joint `k` may differ:
name, indices, children, world, local position and local scale of joint `k`
are preserved, and every other joint is untouched, as are the offsets and
the source pose. -/
def MutatesAtMostRotAt (p q : Pose α) (k : Int) : Prop :=
  q.srcPose = p.srcPose ∧ q.rootOffset = p.rootOffset ∧
  q.poseOffset = p.poseOffset ∧ q.joints.length = p.joints.length ∧
  (∀ i : Nat, (i : Int) ≠ k → q.joints[i]? = p.joints[i]?) ∧
  (∀ j j', p.joints[k.toNat]? = some j → q.joints[k.toNat]? = some j' →
    j'.name = j.name ∧ j'.index = j.index ∧ j'.pindex = j.pindex ∧
    j'.children = j.children ∧ j'.world = j.world ∧
    j'.localT.pos = j.localT.pos ∧ j'.localT.scl = j.localT.scl)

/-! The name heuristics of `BoneAutoMapper.ts`: categorisation by keyword
containment, side detection, and name normalisation. JavaScript regular
expressions are translated directly: `\w` is an ASCII letter, digit or
underscore, and `\b` holds between a word and a non-word character (so it
never holds next to an underscore or inside a run of letters); global
replacement scans left to right trying alternatives in order. Strings are
processed as character lists. -/

/-- Bone categories of `BoneAutoMapper.ts`. -/
inductive BoneCategory where
  | Torso
  | Arms
  | Hands
  | Legs
  | Wings
  | Tail
  | Unknown
deriving DecidableEq

/-- Body sides of `BoneAutoMapper.ts`. -/
inductive BoneSide where
  | Left
  | Right
  | Center
  | Unknown
deriving DecidableEq

/-- JS `\w`: ASCII alphanumeric or underscore. -/
def isWordChar (c : Char) : Bool := c.isAlphanum || c == '_'

/-- Lowercasing of `toLowerCase()` on the character list of a name. -/
def toLowerList (s : String) : List Char := s.data.map Char.toLower

/-- The torso keyword list. -/
def torso_keywords : List String :=
  ["spine", "chest", "neck", "head", "hips", "pelvis", "root", "cog",
   "center", "torso", "back", "ribcage"]

/-- The arm keyword list. -/
def arm_keywords : List String :=
  ["shoulder", "arm", "elbow", "wrist", "clavicle", "scapula", "upperarm",
   "forearm"]

/-- The hand keyword list. -/
def hand_keywords : List String :=
  ["hand", "finger", "thumb", "index", "middle", "ring", "pinky", "palm",
   "knuckle", "metacarpal", "phalanx"]

/-- The leg keyword list. -/
def leg_keywords : List String :=
  ["leg", "thigh", "knee", "ankle", "foot", "toe", "heel", "hip", "upperleg",
   "lowerleg", "shin", "calf"]

/-- The wing keyword list. -/
def wing_keywords : List String := ["wing", "feather", "pinion"]

/-- The tail keyword list. -/
def tail_keywords : List String := ["tail"]

/-- JS `hay.includes(needle)` on character lists. -/
def listIncludes (needle : List Char) : List Char → Bool
  | [] => needle.isEmpty
  | c :: t => needle.isPrefixOf (c :: t) || listIncludes needle t

/-- Keyword containment test: `normalized.includes(keyword)`. -/
def anyKeyword (normalized : List Char) (ks : List String) : Bool :=
  ks.any fun k => listIncludes k.data normalized

/-- `categorize_bone`: first keyword list that matches, in the fixed priority
order torso, arms, hands, legs, wings, tail; otherwise unknown. -/
def categorize_bone (bone_name : String) : BoneCategory :=
  let normalized := toLowerList bone_name
  if anyKeyword normalized torso_keywords then .Torso
  else if anyKeyword normalized arm_keywords then .Arms
  else if anyKeyword normalized hand_keywords then .Hands
  else if anyKeyword normalized leg_keywords then .Legs
  else if anyKeyword normalized wing_keywords then .Wings
  else if anyKeyword normalized tail_keywords then .Tail
  else .Unknown

/-- `determine_bone_side`: torso bones are center; then the anchored
left/right patterns, then substring containment, then the last-character
`l`/`r` fallback. -/
def determine_bone_side (bone_name : String) (category : BoneCategory) :
    BoneSide :=
  let normalized := toLowerList bone_name
  if category = .Torso then .Center
  else if "left".data.isSuffixOf normalized || "left".data.isPrefixOf normalized
      || "l_".data.isPrefixOf normalized || "_l".data.isSuffixOf normalized then
    .Left
  else if "right".data.isSuffixOf normalized || "right".data.isPrefixOf normalized
      || "r_".data.isPrefixOf normalized || "_r".data.isSuffixOf normalized then
    .Right
  else if listIncludes "left".data normalized then .Left
  else if listIncludes "right".data normalized then .Right
  else
    match normalized.getLast? with
    | some c =>
      if c.toLower = 'l' then .Left
      else if c.toLower = 'r' then .Right
      else .Unknown
    | none => .Unknown

/-- Separator normalisation `replace(/[-.\s]/g, "_")`. -/
def sepToUnderscore (l : List Char) : List Char :=
  l.map fun c => if c = '-' || c = '.' || c.isWhitespace then '_' else c

/-- Rig-engine prefix stripping
`replace(/^(mixamorig|mixamorig_|rig_|bone_|jnt_|joint_|def_)/i, "")`:
the first alternative, in order, found at the start is removed once. -/
def stripRigPre (l : List Char) : List Char :=
  match ["mixamorig", "mixamorig_", "rig_", "bone_", "jnt_", "joint_",
      "def_"].find? (fun p => p.data.isPrefixOf l) with
  | some p => l.drop p.length
  | none => l

/-- Word boundary in front of the remainder: the next character is absent or
a non-word character. -/
def bAfter : List Char → Bool
  | [] => true
  | c :: _ => !isWordChar c

/-- Global replacement `replace(/\b(left|right|l|r)\b/g, "")`: scan left to
right tracking the previous character of the original string; at each word
boundary try `left`, `right`, `l`, `r` in order, requiring a word boundary
after the token, and drop the token. Because `_` is a word character, a side
token delimited by underscores is not removed. -/
def sideTokenScan : Nat → Option Char → List Char → List Char
  | _, _, [] => []
  | 0, _, l => l
  | fuel + 1, prev, c :: rest =>
    let bb := match prev with
      | none => true
      | some p => !isWordChar p
    if bb && "left".data.isPrefixOf (c :: rest) && bAfter ((c :: rest).drop 4) then
      sideTokenScan fuel (some 't') ((c :: rest).drop 4)
    else if bb && "right".data.isPrefixOf (c :: rest) && bAfter ((c :: rest).drop 5) then
      sideTokenScan fuel (some 't') ((c :: rest).drop 5)
    else if bb && (c == 'l' || c == 'r') && bAfter rest then
      sideTokenScan fuel (some c) rest
    else
      c :: sideTokenScan fuel (some c) rest

/-- `replace(/^(l|r)_/g, "")`: strip a leading `l_` or `r_`. -/
def stripLeadLR (l : List Char) : List Char :=
  match l with
  | c :: '_' :: rest => if c = 'l' || c = 'r' then rest else l
  | _ => l

/-- `replace(/_(l|r)$/g, "")`: strip a trailing `_l` or `_r`. -/
def stripTrailLR (l : List Char) : List Char :=
  match l.reverse with
  | c :: '_' :: rest => if c = 'l' || c = 'r' then rest.reverse else l
  | _ => l

/-- `replace(/\.(l|r)$/g, "")`: strip a trailing `.l` or `.r` (separators
are already underscores by this point, so this never fires). -/
def stripDotLR (l : List Char) : List Char :=
  match l.reverse with
  | c :: '.' :: rest => if c = 'l' || c = 'r' then rest.reverse else l
  | _ => l

/-- `replace(/__+/g, "_")`: collapse runs of underscores. -/
def collapseUnders : List Char → List Char
  | [] => []
  | [c] => [c]
  | c1 :: c2 :: rest =>
    if c1 = '_' ∧ c2 = '_' then collapseUnders (c2 :: rest)
    else c1 :: collapseUnders (c2 :: rest)

/-- `replace(/^_|_$/g, "")`: remove one leading and one trailing underscore. -/
def stripEdgeUnders (l : List Char) : List Char :=
  let l1 := match l with
    | '_' :: t => t
    | _ => l
  match l1.getLast? with
  | some '_' => l1.dropLast
  | _ => l1

/-- `replace(/[._]0*(\d+)$/g, "$1")`: at the leftmost `.`/`_` followed only
by digits (at least one), keep the digits with their leading zeros consumed
by the greedy `0*` (all-zero digits leave a single `0`). -/
def numSuffixCollapse : List Char → List Char
  | [] => []
  | c :: rest =>
    if (c = '.' ∨ c = '_') ∧ rest ≠ [] ∧ rest.all Char.isDigit then
      let ds := rest.dropWhile (· == '0')
      if ds.isEmpty then ['0'] else ds
    else c :: numSuffixCollapse rest

/-- Global `\b`-delimited synonym replacement
`replace(/\b(upperleg|upleg|thigh)\b/g, "thigh")`. -/
def legSynThigh : Nat → Option Char → List Char → List Char
  | _, _, [] => []
  | 0, _, l => l
  | fuel + 1, prev, c :: rest =>
    let bb := match prev with
      | none => true
      | some p => !isWordChar p
    if bb && "upperleg".data.isPrefixOf (c :: rest) && bAfter ((c :: rest).drop 8) then
      "thigh".data ++ legSynThigh fuel (some 'g') ((c :: rest).drop 8)
    else if bb && "upleg".data.isPrefixOf (c :: rest) && bAfter ((c :: rest).drop 5) then
      "thigh".data ++ legSynThigh fuel (some 'g') ((c :: rest).drop 5)
    else if bb && "thigh".data.isPrefixOf (c :: rest) && bAfter ((c :: rest).drop 5) then
      "thigh".data ++ legSynThigh fuel (some 'h') ((c :: rest).drop 5)
    else
      c :: legSynThigh fuel (some c) rest
/-- Global `\b`-delimited synonym replacement
`replace(/\b(lowerleg|lowleg|shin|calf)\b/g, "calf")`. -/
def legSynCalf : Nat → Option Char → List Char → List Char
  | _, _, [] => []
  | 0, _, l => l
  | fuel + 1, prev, c :: rest =>
    let bb := match prev with
      | none => true
      | some p => !isWordChar p
    if bb && "lowerleg".data.isPrefixOf (c :: rest) && bAfter ((c :: rest).drop 8) then
      "calf".data ++ legSynCalf fuel (some 'g') ((c :: rest).drop 8)
    else if bb && "lowleg".data.isPrefixOf (c :: rest) && bAfter ((c :: rest).drop 6) then
      "calf".data ++ legSynCalf fuel (some 'g') ((c :: rest).drop 6)
    else if bb && "shin".data.isPrefixOf (c :: rest) && bAfter ((c :: rest).drop 4) then
      "calf".data ++ legSynCalf fuel (some 'n') ((c :: rest).drop 4)
    else if bb && "calf".data.isPrefixOf (c :: rest) && bAfter ((c :: rest).drop 4) then
      "calf".data ++ legSynCalf fuel (some 'f') ((c :: rest).drop 4)
    else
      c :: legSynCalf fuel (some c) rest
/-- Global `\b`-delimited synonym replacement
`replace(/\b(upperarm|uparm)\b/g, "upperarm")`. -/
def armSynUpper : Nat → Option Char → List Char → List Char
  | _, _, [] => []
  | 0, _, l => l
  | fuel + 1, prev, c :: rest =>
    let bb := match prev with
      | none => true
      | some p => !isWordChar p
    if bb && "upperarm".data.isPrefixOf (c :: rest) && bAfter ((c :: rest).drop 8) then
      "upperarm".data ++ armSynUpper fuel (some 'm') ((c :: rest).drop 8)
    else if bb && "uparm".data.isPrefixOf (c :: rest) && bAfter ((c :: rest).drop 5) then
      "upperarm".data ++ armSynUpper fuel (some 'm') ((c :: rest).drop 5)
    else
      c :: armSynUpper fuel (some c) rest
/-- Global `\b`-delimited synonym replacement
`replace(/\b(lowerarm|lowarm|forearm)\b/g, "forearm")`. -/
def armSynFore : Nat → Option Char → List Char → List Char
  | _, _, [] => []
  | 0, _, l => l
  | fuel + 1, prev, c :: rest =>
    let bb := match prev with
      | none => true
      | some p => !isWordChar p
    if bb && "lowerarm".data.isPrefixOf (c :: rest) && bAfter ((c :: rest).drop 8) then
      "forearm".data ++ armSynFore fuel (some 'm') ((c :: rest).drop 8)
    else if bb && "lowarm".data.isPrefixOf (c :: rest) && bAfter ((c :: rest).drop 6) then
      "forearm".data ++ armSynFore fuel (some 'm') ((c :: rest).drop 6)
    else if bb && "forearm".data.isPrefixOf (c :: rest) && bAfter ((c :: rest).drop 7) then
      "forearm".data ++ armSynFore fuel (some 'm') ((c :: rest).drop 7)
    else
      c :: armSynFore fuel (some c) rest
/-- `normalize_bone_name(bone_name, category, side)` from `BoneAutoMapper.ts`:
lowercase, separators to underscores, rig prefix stripping, side-token
stripping when the side is known, numeric-suffix collapsing, category
synonym folding, and final underscore cleanup. -/
def normalize_bone_name (bone_name : String) (category : BoneCategory)
    (side : BoneSide) : String :=
  let n0 := toLowerList bone_name
  let n1 := sepToUnderscore n0
  let n2 := stripRigPre n1
  let n3 :=
    if side ≠ BoneSide.Center ∧ side ≠ BoneSide.Unknown then
      stripEdgeUnders (collapseUnders
        (stripDotLR (stripTrailLR (stripLeadLR (sideTokenScan n2.length none n2)))))
    else n2
  let n4 := numSuffixCollapse n3
  let n5 :=
    match category with
    | .Hands => n4
    | .Legs => legSynCalf (legSynThigh n4.length none n4).length none (legSynThigh n4.length none n4)
    | .Arms => armSynFore (armSynUpper n4.length none n4).length none (armSynUpper n4.length none n4)
    | _ => n4
  String.mk (stripEdgeUnders (collapseUnders n5))

/-! Basic algebraic facts about the embedded operators. -/

theorem Vec3.ext_xyz {a b : Vec3 α} (hx : a.x = b.x) (hy : a.y = b.y)
    (hz : a.z = b.z) : a = b := by
  cases a
  cases b
  simp_all

theorem Quat.ext_xyzw {a b : Quat α} (hx : a.x = b.x) (hy : a.y = b.y)
    (hz : a.z = b.z) (hw : a.w = b.w) : a = b := by
  cases a
  cases b
  simp_all

theorem Transform.ext_fields {a b : Transform α} (hr : a.rot = b.rot)
    (hp : a.pos = b.pos) (hs : a.scl = b.scl) : a = b := by
  cases a
  cases b
  simp_all

/-- The two quaternion products of the sources agree (`Quat.mul` of `Quat.ts`
and the file-local `qMul` of `Transform.ts` are the same arithmetic). -/
theorem Quat.mul_eq_qMul (a b : Quat α) : Quat.mul a b = qMul a b := rfl

/-- `Vec3.fromQuat` and the file-local `qTransform` are the same arithmetic. -/
theorem Vec3.fromQuat_eq_qTransform (q : Quat α) (v : Vec3 α) :
    Vec3.fromQuat q v = qTransform q v := rfl

/-- The quaternion product is associative. -/
theorem qMul_assoc (a b c : Quat α) : qMul (qMul a b) c = qMul a (qMul b c) := by
  apply Quat.ext_xyzw <;> simp only [qMul] <;> ring

/-- Squared magnitude is multiplicative over the quaternion product. -/
theorem normSq_qMul (a b : Quat α) :
    Quat.normSq (qMul a b) = Quat.normSq a * Quat.normSq b := by
  simp only [Quat.normSq, qMul]
  ring

/-- The identity quaternion is a two-sided unit for `qMul`. -/
theorem qMul_identity_left (q : Quat α) : qMul ⟨0, 0, 0, 1⟩ q = q := by
  apply Quat.ext_xyzw <;> simp [qMul]

theorem qMul_identity_right (q : Quat α) : qMul q ⟨0, 0, 0, 1⟩ = q := by
  apply Quat.ext_xyzw <;> simp [qMul]

/-- Rotating by the identity quaternion is the identity map. -/
theorem qTransform_identity (v : Vec3 α) : qTransform ⟨0, 0, 0, 1⟩ v = v := by
  apply Vec3.ext_xyz <;> simp [qTransform]

/-- Rotating by a quaternion whose vector part is zero is the identity map
(any scalar part; used for `q * conj q`). -/
theorem qTransform_scalar (w : α) (v : Vec3 α) : qTransform ⟨0, 0, 0, w⟩ v = v := by
  apply Vec3.ext_xyz <;> simp [qTransform]

/-- `qTransform` distributes over vector addition. -/
theorem qTransform_addv (q : Quat α) (v u : Vec3 α) :
    qTransform q (Vec3.addv v u) = Vec3.addv (qTransform q v) (qTransform q u) := by
  apply Vec3.ext_xyz <;> simp only [qTransform, Vec3.addv] <;> ring

/-- `qTransform` commutes with scalar multiples of the vector argument. -/
theorem qTransform_smul (q : Quat α) (c : α) (v : Vec3 α) :
    qTransform q (Vec3.smul c v) = Vec3.smul c (qTransform q v) := by
  apply Vec3.ext_xyz <;> simp only [qTransform, Vec3.smul] <;> ring

/-- For unit quaternions the conjugation formula of `qTransform` is a
homomorphism: rotating by a product is rotating twice. This is the key fact
behind re-associating chains of `Transform` compositions. -/
theorem qTransform_qMul (a b : Quat α) (v : Vec3 α)
    (ha : Quat.normSq a = 1) (hb : Quat.normSq b = 1) :
    qTransform (qMul a b) v = qTransform a (qTransform b v) := by
  obtain ⟨ax, ay, az, aw⟩ := a
  obtain ⟨bx, by', bz, bw⟩ := b
  obtain ⟨vx, vy, vz⟩ := v
  simp only [Quat.normSq] at ha hb
  apply Vec3.ext_xyz
  · show (qTransform (qMul ⟨ax, ay, az, aw⟩ ⟨bx, by', bz, bw⟩) ⟨vx, vy, vz⟩).x = _
    simp only [qTransform, qMul]
    linear_combination
      (vx + 2 * (aw * (ay * vz - az * vy) + ay * (ax * vy - ay * vx) -
        az * (az * vx - ax * vz)) +
        (ax * ax + ay * ay + az * az + aw * aw - 2) * vx) * hb +
      (vx + 2 * (bw * (by' * vz - bz * vy) + by' * (bx * vy - by' * vx) -
        bz * (bz * vx - bx * vz)) -
        (bx * bx + by' * by' + bz * bz + bw * bw) * vx) * ha
  · show (qTransform (qMul ⟨ax, ay, az, aw⟩ ⟨bx, by', bz, bw⟩) ⟨vx, vy, vz⟩).y = _
    simp only [qTransform, qMul]
    linear_combination
      (vy + 2 * (aw * (az * vx - ax * vz) + az * (ay * vz - az * vy) -
        ax * (ax * vy - ay * vx)) +
        (ax * ax + ay * ay + az * az + aw * aw - 2) * vy) * hb +
      (vy + 2 * (bw * (bz * vx - bx * vz) + bz * (by' * vz - bz * vy) -
        bx * (bx * vy - by' * vx)) -
        (bx * bx + by' * by' + bz * bz + bw * bw) * vy) * ha
  · show (qTransform (qMul ⟨ax, ay, az, aw⟩ ⟨bx, by', bz, bw⟩) ⟨vx, vy, vz⟩).z = _
    simp only [qTransform, qMul]
    linear_combination
      (vz + 2 * (aw * (ax * vy - ay * vx) + ax * (az * vx - ax * vz) -
        ay * (ay * vz - az * vy)) +
        (ax * ax + ay * ay + az * az + aw * aw - 2) * vz) * hb +
      (vz + 2 * (bw * (bx * vy - by' * vx) + bx * (bz * vx - bx * vz) -
        by' * (by' * vz - bz * vy)) -
        (bx * bx + by' * by' + bz * bz + bw * bw) * vz) * ha

/-- The identity transform is admissible. -/
theorem nice_identityT : (Transform.identityT : Transform α).nice := by
  refine ⟨?_, rfl, rfl⟩
  simp [Quat.normSq, Transform.identityT]

/-- Admissibility is closed under composition. -/
theorem nice_fromMul {a b : Transform α} (ha : a.nice) (hb : b.nice) :
    (Transform.fromMul a b).nice := by
  obtain ⟨ha1, ha2, ha3⟩ := ha
  obtain ⟨hb1, hb2, hb3⟩ := hb
  refine ⟨?_, ?_, ?_⟩
  · show Quat.normSq (qMul a.rot b.rot) = 1
    rw [normSq_qMul, ha1, hb1, one_mul]
  · show (Vec3.had a.scl b.scl).y = (Vec3.had a.scl b.scl).x
    simp only [Vec3.had]
    rw [ha2, hb2]
  · show (Vec3.had a.scl b.scl).z = (Vec3.had a.scl b.scl).x
    simp only [Vec3.had]
    rw [ha3, hb3]

/-- Hadamard product with a uniform scale is a scalar multiple. -/
theorem had_uniform (s : α) (v : Vec3 α) :
    Vec3.had ⟨s, s, s⟩ v = Vec3.smul s v := rfl

/-- Hadamard product of a uniform scale with another scale, applied to a
third vector, is a scalar multiple of the remaining Hadamard product. -/
theorem had_had_uniform (s : α) (u v : Vec3 α) :
    Vec3.had (Vec3.had ⟨s, s, s⟩ u) v = Vec3.smul s (Vec3.had u v) := by
  apply Vec3.ext_xyz <;> simp only [Vec3.had, Vec3.smul] <;> ring

/-- Homomorphism fact carried through a scalar multiple, in the exact shape
used inside `fromMul_assoc`. -/
theorem qTransform_qMul_smul (a b : Quat α) (s : α) (v : Vec3 α)
    (ha : Quat.normSq a = 1) (hb : Quat.normSq b = 1) :
    qTransform (qMul a b) (Vec3.smul s v)
      = Vec3.smul s (qTransform a (qTransform b v)) := by
  rw [qTransform_smul, qTransform_qMul a b v ha hb]

/-- Composition with the identity transform on the left changes nothing. -/
theorem fromMul_identity_left (t : Transform α) :
    Transform.fromMul Transform.identityT t = t := by
  apply Transform.ext_fields
  · exact qMul_identity_left t.rot
  · apply Vec3.ext_xyz <;>
      simp [Transform.identityT, Transform.fromMul, Vec3.addv, Vec3.had, qTransform]
  · apply Vec3.ext_xyz <;>
      simp [Transform.identityT, Transform.fromMul, Vec3.had]

/-- Composition with the identity transform on the right changes nothing. -/
theorem fromMul_identity_right (t : Transform α) :
    Transform.fromMul t Transform.identityT = t := by
  apply Transform.ext_fields
  · exact qMul_identity_right t.rot
  · apply Vec3.ext_xyz <;>
      simp [Transform.identityT, Transform.fromMul, Vec3.addv, Vec3.had, qTransform]
  · apply Vec3.ext_xyz <;>
      simp [Transform.identityT, Transform.fromMul, Vec3.had]

/-- Transform composition re-associates whenever the outermost transform has a
uniform scale and the two outer rotations are unit quaternions. With
non-uniform scales this fails (see the counterexamples below). -/
theorem fromMul_assoc (a b c : Transform α)
    (hs2 : a.scl.y = a.scl.x) (hs3 : a.scl.z = a.scl.x)
    (ha : Quat.normSq a.rot = 1) (hb : Quat.normSq b.rot = 1) :
    Transform.fromMul (Transform.fromMul a b) c
      = Transform.fromMul a (Transform.fromMul b c) := by
  obtain ⟨arot, apos, ascl⟩ := a
  obtain ⟨sx, sy, sz⟩ := ascl
  dsimp only at hs2 hs3 ha
  subst hs2
  subst hs3
  apply Transform.ext_fields
  · simp only [Transform.fromMul]
    exact qMul_assoc arot b.rot c.rot
  · simp only [Transform.fromMul]
    rw [had_had_uniform, qTransform_qMul_smul _ _ _ _ ha hb]
    apply Vec3.ext_xyz <;>
      simp only [Vec3.addv, Vec3.smul, Vec3.had, qTransform] <;> ring
  · apply Vec3.ext_xyz <;>
      simp only [Transform.fromMul, Vec3.had] <;> ring


theorem wfParents_wfl {p : Pose α} (h : p.wfParents) : WFL p.joints := by
  intro i j hij
  obtain ⟨hlen, hget⟩ := List.getElem?_eq_some.mp hij
  have hfin := h ⟨i, hlen⟩
  simpa [List.get_eq_getElem, hget] using hfin

theorem niceAll_niceL {p : Pose α} (h : p.niceAll) : NiceL p.joints := h.2.2

/-- Fuel does not matter for `uwGo` above the joint index, on well-formed
parent links. -/
theorem uwGo_fuel {js : List (Joint α)} {ro po : Transform α} (hwf : WFL js) :
    ∀ (i f g : Nat), i < f → i < g → uwGo js ro po f i = uwGo js ro po g i := by
  intro i
  induction i using Nat.strong_induction_on with
  | _ i IH =>
    intro f g hf hg
    cases f with
    | zero => omega
    | succ f =>
      cases g with
      | zero => omega
      | succ g =>
        simp only [uwGo]
        cases hj : js[i]? with
        | none => rfl
        | some j =>
          rcases hwf i j hj with hp | ⟨hge, hlt⟩
          · simp [hp]
          · have hne : j.pindex ≠ -1 := by omega
            simp only [hne, if_neg, if_false]
            rw [IH j.pindex.toNat hlt f g (by omega) (by omega)]

/-- Fuel does not matter for `preGo` above the joint index. -/
theorem preGo_fuel {js : List (Joint α)} (hwf : WFL js) :
    ∀ (i f g : Nat), i < f → i < g → preGo js f i = preGo js g i := by
  intro i
  induction i using Nat.strong_induction_on with
  | _ i IH =>
    intro f g hf hg
    cases f with
    | zero => omega
    | succ f =>
      cases g with
      | zero => omega
      | succ g =>
        simp only [preGo]
        cases hj : js[i]? with
        | none => rfl
        | some j =>
          rcases hwf i j hj with hp | ⟨hge, hlt⟩
          · simp [hp]
          · have hne : j.pindex ≠ -1 := by omega
            simp only [hne, if_neg, if_false]
            cases hpj : js[j.pindex.toNat]? with
            | none => rfl
            | some pj =>
              rw [IH j.pindex.toNat hlt f g (by omega) (by omega)]

/-- Ancestor products of admissible locals are admissible. -/
theorem preGo_nice {js : List (Joint α)} (hn : NiceL js) :
    ∀ (f i : Nat), (preGo js f i).nice := by
  intro f
  induction f with
  | zero => intro i; exact nice_identityT
  | succ f IH =>
    intro i
    simp only [preGo]
    cases hj : js[i]? with
    | none => exact nice_identityT
    | some j =>
      by_cases hp : j.pindex = -1
      · simp only [hp, if_pos]
        exact nice_identityT
      · simp only [hp, if_neg, if_false]
        cases hpj : js[j.pindex.toNat]? with
        | none => exact nice_identityT
        | some pj => exact nice_fromMul (IH _) (hn pj (List.getElem?_mem hpj))

theorem preW_nice {js : List (Joint α)} (hn : NiceL js) (i : Nat) :
    (preW js i).nice := preGo_nice hn _ _

/-- `uw` at a root joint. -/
theorem uw_eq_root {js : List (Joint α)} {ro po : Transform α} {i : Nat}
    {j : Joint α} (hj : js[i]? = some j) (hp : j.pindex = -1) :
    uw js ro po i = Transform.mul (Transform.fromMul ro po) j.localT := by
  simp [uw, uwGo, hj, hp]

/-- `uw` at a child joint unfolds through its parent. -/
theorem uw_eq_child {js : List (Joint α)} {ro po : Transform α} (hwf : WFL js)
    {i : Nat} {j : Joint α} (hj : js[i]? = some j) (hp : j.pindex ≠ -1)
    (hlt : j.pindex.toNat < i) :
    uw js ro po i = Transform.fromMul (uw js ro po j.pindex.toNat) j.localT := by
  conv_lhs => rw [uw]
  simp only [uwGo, hj]
  rw [if_neg hp, uwGo_fuel hwf j.pindex.toNat i (j.pindex.toNat + 1) hlt (by omega)]
  rfl

/-- `preW` at a root joint. -/
theorem preW_eq_root {js : List (Joint α)} {i : Nat} {j : Joint α}
    (hj : js[i]? = some j) (hp : j.pindex = -1) :
    preW js i = Transform.identityT := by
  simp [preW, preGo, hj, hp]

/-- `preW` at a child joint unfolds through its parent. -/
theorem preW_eq_child {js : List (Joint α)} (hwf : WFL js) {i : Nat}
    {j pj : Joint α} (hj : js[i]? = some j) (hp : j.pindex ≠ -1)
    (hlt : j.pindex.toNat < i) (hpj : js[j.pindex.toNat]? = some pj) :
    preW js i = Transform.fromMul (preW js j.pindex.toNat) pj.localT := by
  conv_lhs => rw [preW]
  simp only [preGo, hj, hpj]
  rw [if_neg hp, preGo_fuel hwf j.pindex.toNat i (j.pindex.toNat + 1) hlt (by omega)]
  rfl

/-- Bridge between the left-associated cached value and the ancestor
product: `uw i = ((rootOffset ∘ poseOffset) ∘ preW i) ∘ local i`, assuming
well-formed parents and admissible transforms throughout. -/
theorem uw_pre {js : List (Joint α)} {ro po : Transform α} (hwf : WFL js)
    (hn : NiceL js) (hro : ro.nice) (hpo : po.nice) :
    ∀ (i : Nat) (j : Joint α), js[i]? = some j →
      uw js ro po i =
        Transform.fromMul
          (Transform.fromMul (Transform.fromMul ro po) (preW js i)) j.localT := by
  intro i
  induction i using Nat.strong_induction_on with
  | _ i IH =>
    intro j hj
    rcases hwf i j hj with hp | ⟨hge, hlt⟩
    · rw [uw_eq_root hj hp, preW_eq_root hj hp, fromMul_identity_right]
      rfl
    · have hp : j.pindex ≠ -1 := by omega
      have hplen : j.pindex.toNat < js.length := by
        have := (List.getElem?_eq_some.mp hj).1
        omega
      obtain ⟨pj, hpj⟩ : ∃ pj, js[j.pindex.toNat]? = some pj :=
        ⟨_, List.getElem?_eq_getElem hplen⟩
      rw [uw_eq_child hwf hj hp hlt, IH j.pindex.toNat hlt pj hpj,
        preW_eq_child hwf hj hp hlt hpj]
      congr 1
      have hx : (Transform.fromMul ro po).nice := nice_fromMul hro hpo
      exact fromMul_assoc (Transform.fromMul ro po) (preW js j.pindex.toNat)
        pj.localT hx.2.1 hx.2.2 hx.1 (preW_nice hn j.pindex.toNat).1

/-- One unfolding step of the walk loop. -/
theorem walk_unfold (js : List (Joint α)) (fuel : Nat) (j : Joint α)
    (X : Transform α) :
    Pose.walk js fuel j X =
      if j.pindex = -1 then .ok X
      else
        match listGetInt js j.pindex with
        | none => .error "TypeError"
        | some pj =>
          match fuel with
          | 0 => .error "loop"
          | f + 1 => Pose.walk js f pj (Transform.pmul X pj.localT) := by
  rw [Pose.walk]

/-- The bottom-up walk of `getWorld` computes the ancestor product applied
to the accumulator, assuming well-formed parents and admissible locals. -/
theorem walk_spec {js : List (Joint α)} (hwf : WFL js) (hn : NiceL js) :
    ∀ (i : Nat) (j : Joint α) (X : Transform α) (fuel : Nat),
      js[i]? = some j → i < fuel →
      Pose.walk js fuel j X = .ok (Transform.fromMul (preW js i) X) := by
  intro i
  induction i using Nat.strong_induction_on with
  | _ i IH =>
    intro j X fuel hj hfuel
    rcases hwf i j hj with hp | ⟨hge, hlt⟩
    · rw [preW_eq_root hj hp, fromMul_identity_left, walk_unfold, if_pos hp]
    · have hp : j.pindex ≠ -1 := by omega
      have hplen : j.pindex.toNat < js.length := by
        have := (List.getElem?_eq_some.mp hj).1
        omega
      obtain ⟨pj, hpj⟩ : ∃ pj, js[j.pindex.toNat]? = some pj :=
        ⟨_, List.getElem?_eq_getElem hplen⟩
      cases fuel with
      | zero => omega
      | succ f =>
        have hstep : Pose.walk js (f + 1) j X
            = Pose.walk js f pj (Transform.pmul X pj.localT) := by
          rw [walk_unfold, if_neg hp]
          simp only [listGetInt, if_pos hge, hpj]
        have hpm : Transform.pmul X pj.localT = Transform.fromMul pj.localT X := rfl
        rw [hstep, hpm, IH j.pindex.toNat hlt pj _ f hpj (by omega),
          preW_eq_child hwf hj hp hlt hpj]
        have hassoc := fromMul_assoc (preW js j.pindex.toNat) pj.localT X
          (preW_nice hn j.pindex.toNat).2.1 (preW_nice hn j.pindex.toNat).2.2
          (preW_nice hn j.pindex.toNat).1 (hn pj (List.getElem?_mem hpj)).1
        rw [hassoc]

/-- Loop invariant of the `updateWorld` pass: the processed prefix holds the
`uw` worlds, the remainder is untouched, and on well-formed parents the pass
completes with every joint's cached world equal to `uw`. -/
theorem updGo_spec {js : List (Joint α)} (ro po : Transform α) (hwf : WFL js) :
    ∀ (todo done : List (Joint α)),
      todo = js.drop done.length →
      done.length ≤ js.length →
      (∀ (k : Nat), k < done.length → ∃ j, js[k]? = some j ∧
          done[k]? = some { j with world := uw js ro po k }) →
      ∃ js', updateWorldGo ro po done todo = .ok js' ∧
        js'.length = js.length ∧
        (∀ (k : Nat) (j : Joint α), js[k]? = some j →
          js'[k]? = some { j with world := uw js ro po k }) := by
  intro todo
  induction todo with
  | nil =>
    intro done hdrop hlen hspec
    have hfull : done.length = js.length := by
      have := List.drop_eq_nil_iff.mp hdrop.symm
      omega
    refine ⟨done, rfl, hfull, ?_⟩
    intro k j hk
    have hklen : k < js.length := (List.getElem?_eq_some.mp hk).1
    obtain ⟨j0, hj0, hd⟩ := hspec k (by omega)
    rw [hj0] at hk
    cases hk
    exact hd
  | cons j rest IH =>
    intro done hdrop hlen hspec
    have hjn : js[done.length]? = some j := by
      have h0 := List.getElem?_drop js done.length 0
      rw [← hdrop] at h0
      simpa using h0.symm
    have hrest : js.drop (done.length + 1) = rest := by
      have h2 : (js.drop done.length).tail = rest := by rw [← hdrop]; rfl
      rw [← h2, List.tail_drop]
    have hlen1 : done.length + 1 ≤ js.length := (List.getElem?_eq_some.mp hjn).1
    rcases hwf done.length j hjn with hp | ⟨hge, hlt⟩
    · -- root joint: world := fromMul(ro, po).mul(local)
      have hroot : uw js ro po done.length
          = Transform.mul (Transform.fromMul ro po) j.localT := uw_eq_root hjn hp
      have hgo : updateWorldGo ro po done (j :: rest)
          = updateWorldGo ro po
              (done ++ [{ j with world := uw js ro po done.length }]) rest := by
        simp [updateWorldGo, hp, hroot]
      rw [hgo]
      apply IH
      · simp [hrest]
      · simpa using hlen1
      · intro k hk
        simp only [List.length_append, List.length_cons, List.length_nil] at hk
        by_cases hkn : k < done.length
        · obtain ⟨j0, hj0, hd⟩ := hspec k hkn
          exact ⟨j0, hj0, by rw [List.getElem?_append_left hkn]; exact hd⟩
        · have hkeq : k = done.length := by omega
          subst hkeq
          exact ⟨j, hjn, List.getElem?_concat_length _ _⟩
    · -- child joint: parent already processed, world := fromMul(parent.world, local)
      have hp : j.pindex ≠ -1 := by omega
      obtain ⟨jp, hjp, hdp⟩ := hspec j.pindex.toNat hlt
      have hlook : listGetInt (done ++ j :: rest) j.pindex
          = some { jp with world := uw js ro po j.pindex.toNat } := by
        simp only [listGetInt, if_pos hge]
        rw [List.getElem?_append_left hlt]
        exact hdp
      have hchild : uw js ro po done.length
          = Transform.fromMul (uw js ro po j.pindex.toNat) j.localT :=
        uw_eq_child hwf hjn hp hlt
      have hgo : updateWorldGo ro po done (j :: rest)
          = updateWorldGo ro po
              (done ++ [{ j with world := uw js ro po done.length }]) rest := by
        simp [updateWorldGo, hp, hlook, hchild]
      rw [hgo]
      apply IH
      · simp [hrest]
      · simpa using hlen1
      · intro k hk
        simp only [List.length_append, List.length_cons, List.length_nil] at hk
        by_cases hkn : k < done.length
        · obtain ⟨j0, hj0, hd⟩ := hspec k hkn
          exact ⟨j0, hj0, by rw [List.getElem?_append_left hkn]; exact hd⟩
        · have hkeq : k = done.length := by omega
          subst hkeq
          exact ⟨j, hjn, List.getElem?_concat_length _ _⟩

/-- `getWorld` at a valid joint index computes the right-associated walk,
which under admissibility re-associates into offsets-then-ancestors form. -/
theorem getWorld_valid {p : Pose α} (hwf : WFL p.joints) (hn : NiceL p.joints)
    (hro : p.rootOffset.nice) (hpo : p.poseOffset.nice)
    (i : Nat) (j : Joint α) (hj : p.joints[i]? = some j) :
    Pose.getWorld p (i : Int)
      = .ok (Transform.fromMul
          (Transform.fromMul (Transform.fromMul p.rootOffset p.poseOffset)
            (preW p.joints i))
          j.localT) := by
  have hne : (i : Int) ≠ -1 := by omega
  have hget : p.getJoint (i : Int) = .obj j := by
    simp only [Pose.getJoint, listGetInt]
    rw [if_pos (by omega)]
    have htn : ((i : Int)).toNat = i := by omega
    rw [htn, hj]
  have hlen : i < p.joints.length := (List.getElem?_eq_some.mp hj).1
  simp only [Pose.getWorld, if_neg hne, hget]
  rw [walk_spec hwf hn i j j.localT p.joints.length hj hlen]
  simp only [Except.map]
  have hpm1 : Transform.pmul (Transform.fromMul (preW p.joints i) j.localT)
      p.poseOffset
      = Transform.fromMul p.poseOffset
          (Transform.fromMul (preW p.joints i) j.localT) := rfl
  have hpm2 : ∀ t : Transform α, Transform.pmul t p.rootOffset
      = Transform.fromMul p.rootOffset t := fun _ => rfl
  rw [hpm1, hpm2]
  rw [← fromMul_assoc p.rootOffset p.poseOffset
      (Transform.fromMul (preW p.joints i) j.localT) hro.2.1 hro.2.2 hro.1 hpo.1]
  rw [← fromMul_assoc (Transform.fromMul p.rootOffset p.poseOffset)
      (preW p.joints i) j.localT (nice_fromMul hro hpo).2.1
      (nice_fromMul hro hpo).2.2 (nice_fromMul hro hpo).1 (preW_nice hn i).1]

/-- C1 (amended core): on a pose with well-formed parent links whose
transforms are all admissible — every joint local transform and also
`rootOffset` and `poseOffset` have a unit rotation and uniform scale —
`getWorld(-1)` is `fromMul(rootOffset, poseOffset)`, `updateWorld`
completes, and `getWorld(i)` agrees with the cached world transform
`updateWorld` stores for joint `i`. -/
theorem c1_getWorld_matches_updateWorld (p : Pose ℚ)
    (hwf : p.wfParents) (hnice : p.niceAll) :
    Pose.getWorld p (-1)
        = .ok (Transform.fromMul p.rootOffset p.poseOffset) ∧
    ∃ js', Pose.updateWorld p
        = .ok (.mk p.srcPose js' p.rootOffset p.poseOffset) ∧
      js'.length = p.joints.length ∧
      ∀ (i : Nat) (j' : Joint ℚ), js'[i]? = some j' →
        Pose.getWorld p (i : Int) = .ok j'.world := by
  have hwfl := wfParents_wfl hwf
  have hnl := niceAll_niceL hnice
  obtain ⟨hro, hpo, _⟩ := hnice
  constructor
  · simp [Pose.getWorld]
  · obtain ⟨js', hgo, hlen, hspec⟩ :=
      updGo_spec p.rootOffset p.poseOffset hwfl p.joints [] (by simp) (by simp)
        (by intro k hk; exact absurd hk (Nat.not_lt_zero k))
    refine ⟨js', ?_, hlen, ?_⟩
    · simp only [Pose.updateWorld, hgo, Except.map]
    · intro i j' hj'
      have hilen : i < p.joints.length := by
        have := (List.getElem?_eq_some.mp hj').1
        omega
      obtain ⟨j, hj⟩ : ∃ j, p.joints[i]? = some j :=
        ⟨_, List.getElem?_eq_getElem hilen⟩
      have hsp := hspec i j hj
      rw [hj'] at hsp
      have hj'eq := Option.some.inj hsp
      subst hj'eq
      rw [getWorld_valid hwfl hnl hro hpo i j hj]
      have hup := uw_pre hwfl hnl hro hpo i j hj
      rw [← hup]

/-! Claim C2: associativity of `fromMul`. -/

/-- The squared magnitude of the conjugate equals that of the quaternion. -/
theorem normSq_conj (q : Quat α) : Quat.normSq (Quat.conj q) = Quat.normSq q := by
  simp only [Quat.normSq, Quat.conj]
  ring

/-- A unit quaternion times its conjugate is the identity quaternion. -/
theorem qMul_conj {q : Quat α} (hq : Quat.normSq q = 1) :
    qMul q (Quat.conj q) = ⟨0, 0, 0, 1⟩ := by
  obtain ⟨qx, qy, qz, qw⟩ := q
  simp only [Quat.normSq] at hq
  apply Quat.ext_xyzw
  · simp only [qMul, Quat.conj]
    ring
  · simp only [qMul, Quat.conj]
    ring
  · simp only [qMul, Quat.conj]
    ring
  · simp only [qMul, Quat.conj]
    linear_combination hq

/-- C2 (corrected): `fromMul` is associative in the rotation and scale
components unconditionally; the full transform, position included, is
associative provided the outermost transform has a uniform scale and the two
outer rotations are unit quaternions. With a non-uniform scale the position
components differ (see the counterexample). -/
theorem c2_fromMul_assoc (A B C : Transform ℚ) :
    (Transform.fromMul (Transform.fromMul A B) C).rot
        = (Transform.fromMul A (Transform.fromMul B C)).rot ∧
    (Transform.fromMul (Transform.fromMul A B) C).scl
        = (Transform.fromMul A (Transform.fromMul B C)).scl ∧
    (A.scl.y = A.scl.x → A.scl.z = A.scl.x → Quat.normSq A.rot = 1 →
      Quat.normSq B.rot = 1 →
      Transform.fromMul (Transform.fromMul A B) C
        = Transform.fromMul A (Transform.fromMul B C)) := by
  refine ⟨?_, ?_, ?_⟩
  · simp only [Transform.fromMul]
    exact qMul_assoc A.rot B.rot C.rot
  · apply Vec3.ext_xyz <;> simp only [Transform.fromMul, Vec3.had] <;> ring
  · intro h1 h2 h3 h4
    exact fromMul_assoc A B C h1 h2 h3 h4

/-- Witness for C2 at the identity transforms. -/
theorem c2_fromMul_assoc_witness :
    ((Transform.identityT : Transform ℚ).scl.y = Transform.identityT.scl.x) ∧
    ((Transform.identityT : Transform ℚ).scl.z = Transform.identityT.scl.x) ∧
    Quat.normSq (Transform.identityT : Transform ℚ).rot = 1 ∧
    Transform.fromMul (Transform.fromMul Transform.identityT Transform.identityT)
        (Transform.identityT : Transform ℚ)
      = Transform.fromMul Transform.identityT
          (Transform.fromMul Transform.identityT Transform.identityT) :=
  ⟨rfl, rfl, by simp [Quat.normSq, Transform.identityT],
    (c2_fromMul_assoc Transform.identityT Transform.identityT
      Transform.identityT).2.2 rfl rfl
      (by simp [Quat.normSq, Transform.identityT])
      (by simp [Quat.normSq, Transform.identityT])⟩

/-- C2 counterexample: with parent scale `(1, 2, 1)`, a child rotated by the
unit quaternion `(0, 0, 3/5, 4/5)` and a grandchild at position `(1, 0, 0)`,
the two associations give position `y` components `24/25` and `48/25` —
far beyond the `1e-5` tolerance. -/
theorem c2_assoc_counterexample :
    ¬ Transform.approx (1 / 100000)
      (Transform.fromMul
        (Transform.fromMul
          (⟨⟨0, 0, 0, 1⟩, ⟨0, 0, 0⟩, ⟨1, 2, 1⟩⟩ : Transform ℚ)
          ⟨⟨0, 0, 3/5, 4/5⟩, ⟨0, 0, 0⟩, ⟨1, 1, 1⟩⟩)
        ⟨⟨0, 0, 0, 1⟩, ⟨1, 0, 0⟩, ⟨1, 1, 1⟩⟩)
      (Transform.fromMul (⟨⟨0, 0, 0, 1⟩, ⟨0, 0, 0⟩, ⟨1, 2, 1⟩⟩ : Transform ℚ)
        (Transform.fromMul ⟨⟨0, 0, 3/5, 4/5⟩, ⟨0, 0, 0⟩, ⟨1, 1, 1⟩⟩
          ⟨⟨0, 0, 0, 1⟩, ⟨1, 0, 0⟩, ⟨1, 1, 1⟩⟩)) := by
  intro h
  have hy := h.2.2.2.2.2.1
  norm_num [Transform.fromMul, qMul, qTransform, Vec3.had, Vec3.addv,
    approxEq, abs_le] at hy

/-! Claim C3: inversion round-trip of `Transform`. -/

/-- On a unit quaternion, `qInvert` is plain conjugation. -/
theorem qInvert_unit {q : Quat α} (hq : Quat.normSq q = 1) :
    qInvert q = Quat.conj q := by
  obtain ⟨qx, qy, qz, qw⟩ := q
  simp only [Quat.normSq] at hq
  simp only [qInvert, hq]
  rw [if_neg one_ne_zero]
  apply Quat.ext_xyzw <;> simp [Quat.conj]

/-- C3 (corrected): for a transform with a unit rotation and a uniform
non-zero scale, `fromMul(T, fromInvert(T))` is exactly the identity
transform. With a non-uniform scale the position of the product is not zero
(see the counterexample). -/
theorem c3_invert_roundtrip (T : Transform ℚ) (hq : Quat.normSq T.rot = 1)
    (h2 : T.scl.y = T.scl.x) (h3 : T.scl.z = T.scl.x) (h0 : T.scl.x ≠ 0) :
    Transform.fromMul T (Transform.fromInvert T) = Transform.identityT := by
  obtain ⟨q, p, s⟩ := T
  obtain ⟨sx, sy, sz⟩ := s
  dsimp only at hq h2 h3 h0
  subst h2
  subst h3
  simp only [Transform.fromMul, Transform.fromInvert, Transform.identityT]
  rw [qInvert_unit hq]
  have hconj : Quat.normSq (Quat.conj q) = 1 := by rw [normSq_conj, hq]
  apply Transform.ext_fields
  · exact qMul_conj hq
  · have hvec : (⟨-p.x * (1 / sz), -p.y * (1 / sz), -p.z * (1 / sz)⟩ : Vec3 ℚ)
        = Vec3.smul (1 / sz) ⟨-p.x, -p.y, -p.z⟩ := by
      apply Vec3.ext_xyz <;> simp only [Vec3.smul] <;> ring
    rw [hvec, qTransform_smul]
    have hhad : Vec3.had ⟨sz, sz, sz⟩
        (Vec3.smul (1 / sz) (qTransform (Quat.conj q) ⟨-p.x, -p.y, -p.z⟩))
        = qTransform (Quat.conj q) ⟨-p.x, -p.y, -p.z⟩ := by
      apply Vec3.ext_xyz <;> simp only [Vec3.had, Vec3.smul] <;>
        field_simp
    rw [hhad, ← qTransform_qMul q (Quat.conj q) _ hq hconj, qMul_conj hq,
      qTransform_identity]
    apply Vec3.ext_xyz <;> simp only [Vec3.addv] <;> ring
  · apply Vec3.ext_xyz <;> simp only [Vec3.had] <;> field_simp

/-- Witness for C3 at the identity transform. -/
theorem c3_invert_roundtrip_witness :
    Quat.normSq (Transform.identityT : Transform ℚ).rot = 1 ∧
    ((Transform.identityT : Transform ℚ).scl.y = Transform.identityT.scl.x) ∧
    ((Transform.identityT : Transform ℚ).scl.z = Transform.identityT.scl.x) ∧
    (Transform.identityT : Transform ℚ).scl.x ≠ 0 ∧
    Transform.fromMul Transform.identityT
        (Transform.fromInvert (Transform.identityT : Transform ℚ))
      = Transform.identityT :=
  ⟨by simp [Quat.normSq, Transform.identityT], rfl, rfl, by simp [Transform.identityT],
    c3_invert_roundtrip Transform.identityT
      (by simp [Quat.normSq, Transform.identityT]) rfl rfl
      (by simp [Transform.identityT])⟩

/-- C3 counterexample: for rotation `(0, 0, 3/5, 4/5)`, position `(1, 0, 0)`
and non-uniform scale `(1, 2, 1)`, the product `fromMul(T, fromInvert(T))`
has position `x` component `-576/625`, nowhere near the identity within
`1e-5`. -/
theorem c3_invert_counterexample :
    ¬ Transform.approx (1 / 100000)
      (Transform.fromMul (⟨⟨0, 0, 3/5, 4/5⟩, ⟨1, 0, 0⟩, ⟨1, 2, 1⟩⟩ : Transform ℚ)
        (Transform.fromInvert ⟨⟨0, 0, 3/5, 4/5⟩, ⟨1, 0, 0⟩, ⟨1, 2, 1⟩⟩))
      Transform.identityT := by
  intro h
  have hx := h.2.2.2.2.1
  norm_num [Transform.fromMul, Transform.fromInvert, Transform.identityT,
    qMul, qInvert, qTransform, Vec3.had, Vec3.addv, approxEq, abs_le] at hx

/-! Claim C8: totality of quaternion inversion. -/

/-- C8 (confirmed): `Quat.invert` and the `Transform.ts`-local `qInvert` are
total — a zero-magnitude quaternion maps to the all-zero quaternion (not the
identity), and any other quaternion maps to its conjugate divided by its
squared magnitude, so the reciprocal is only ever taken of a non-zero
value. -/
theorem c8_invert_total (q : Quat ℚ) :
    (Quat.normSq q = 0 →
      Quat.invert q = ⟨0, 0, 0, 0⟩ ∧ qInvert q = ⟨0, 0, 0, 0⟩) ∧
    (Quat.normSq q ≠ 0 →
      Quat.invert q = Quat.scale (1 / Quat.normSq q) (Quat.conj q) ∧
      qInvert q = Quat.invert q) := by
  constructor
  · intro h0
    simp only [Quat.normSq] at h0
    constructor
    · simp [Quat.invert, h0]
    · simp [qInvert, h0]
  · intro hne
    simp only [Quat.normSq] at hne
    constructor
    · simp only [Quat.invert, Quat.normSq]
      rw [if_neg hne]
      apply Quat.ext_xyzw <;> simp only [Quat.scale, Quat.conj] <;> ring
    · simp only [Quat.invert, qInvert]

/-- Witness for C8 at the zero quaternion and at `(0, 0, 0, 2)`. -/
theorem c8_invert_total_witness :
    (Quat.normSq (⟨0, 0, 0, 0⟩ : Quat ℚ) = 0 ∧
      Quat.invert (⟨0, 0, 0, 0⟩ : Quat ℚ) = ⟨0, 0, 0, 0⟩) ∧
    (Quat.normSq (⟨0, 0, 0, 2⟩ : Quat ℚ) ≠ 0 ∧
      Quat.invert (⟨0, 0, 0, 2⟩ : Quat ℚ)
        = Quat.scale (1 / Quat.normSq ⟨0, 0, 0, 2⟩) (Quat.conj ⟨0, 0, 0, 2⟩)) :=
  ⟨⟨by simp [Quat.normSq],
    ((c8_invert_total ⟨0, 0, 0, 0⟩).1 (by simp [Quat.normSq])).1⟩,
   ⟨by simp [Quat.normSq],
    ((c8_invert_total ⟨0, 0, 0, 2⟩).2 (by simp [Quat.normSq])).1⟩⟩

/-! Claim C4: side-token stripping of paired bone names. -/

/-- C4 (code bug): `LeftUpperArm` and `RightUpperArm` are classified as
`arms`/`left` and `arms`/`right`, but `normalize_bone_name` leaves them as
`leftupperarm` and `rightupperarm` — two different strings. The side-token
removal uses the regular expression `\b(left|right|l|r)\b`, and since `\b`
never holds between two word characters (letters, digits or underscore),
the pattern cannot match a side token that is glued to the rest of the name
or delimited by underscores. Even the example in the code's own comment
fails: `arm_left` normalizes to `arm_left`, not `arm`. -/
theorem c4_side_stripping_fails :
    categorize_bone "LeftUpperArm" = BoneCategory.Arms ∧
    categorize_bone "RightUpperArm" = BoneCategory.Arms ∧
    determine_bone_side "LeftUpperArm" BoneCategory.Arms = BoneSide.Left ∧
    determine_bone_side "RightUpperArm" BoneCategory.Arms = BoneSide.Right ∧
    normalize_bone_name "LeftUpperArm" BoneCategory.Arms BoneSide.Left
      = "leftupperarm" ∧
    normalize_bone_name "RightUpperArm" BoneCategory.Arms BoneSide.Right
      = "rightupperarm" ∧
    normalize_bone_name "LeftUpperArm" BoneCategory.Arms BoneSide.Left
      ≠ normalize_bone_name "RightUpperArm" BoneCategory.Arms BoneSide.Right ∧
    normalize_bone_name "arm_left" BoneCategory.Arms BoneSide.Left
      = "arm_left" := by
  decide

/-! Claim C6: `Pose.reset`. -/

/-- The copy loop of `reset` succeeds when the source has at least as many
joints, replacing exactly each joint's local transform. -/
theorem resetJoints_spec :
    ∀ (js ss : List (Joint α)), js.length ≤ ss.length →
      ∃ r, resetJoints js ss = .ok r ∧ r.length = js.length ∧
        ∀ (i : Nat) (j : Joint α), js[i]? = some j →
          ∃ sj, ss[i]? = some sj ∧ r[i]? = some { j with localT := sj.localT } := by
  intro js
  induction js with
  | nil =>
    intro ss _
    exact ⟨[], rfl, rfl, by intro i j h; simp at h⟩
  | cons j jt IH =>
    intro ss hlen
    cases ss with
    | nil => simp at hlen
    | cons s st =>
      obtain ⟨r, hr, hrlen, hrspec⟩ := IH st (by simpa using hlen)
      refine ⟨{ j with localT := s.localT } :: r, ?_, by simp [hrlen], ?_⟩
      · simp only [resetJoints, hr, Except.map]
      · intro i j0 hj0
        cases i with
        | zero =>
          simp only [List.getElem?_cons_zero] at hj0 ⊢
          cases hj0
          exact ⟨s, rfl, rfl⟩
        | succ i =>
          simp only [List.getElem?_cons_succ] at hj0 ⊢
          exact hrspec i j0 hj0

/-- C6 (corrected): with no `srcPose`, `reset` reports its error and mutates
nothing; with a `srcPose` holding at least as many joints (always the case
for clones), `reset` succeeds and copies every joint's local transform from
the source joint at the same index, leaving the joint's name, indices,
children and world, the joint order, the offsets and the source reference
unchanged. A source with fewer joints makes the copy loop throw instead
(see the counterexample). -/
theorem c6_reset_behaviour (p : Pose ℚ) :
    (p.srcPose = none →
      Pose.reset p = .error "Pose.reset - No source available for resetting") ∧
    (∀ src, p.srcPose = some src → p.joints.length ≤ src.joints.length →
      ∃ p', Pose.reset p = .ok p' ∧
        p'.srcPose = p.srcPose ∧ p'.rootOffset = p.rootOffset ∧
        p'.poseOffset = p.poseOffset ∧
        p'.joints.length = p.joints.length ∧
        ∀ (i : Nat) (j : Joint ℚ), p.joints[i]? = some j →
          ∃ sj, src.joints[i]? = some sj ∧
            p'.joints[i]? = some { j with localT := sj.localT }) := by
  constructor
  · intro h0
    simp [Pose.reset, h0]
  · intro src hsrc hlen
    obtain ⟨r, hr, hrlen, hrspec⟩ := resetJoints_spec p.joints src.joints hlen
    refine ⟨.mk p.srcPose r p.rootOffset p.poseOffset, ?_, ?_⟩
    · simp only [Pose.reset, hsrc, hr, Except.map]
    · exact ⟨rfl, rfl, rfl, hrlen, hrspec⟩

/-- Witness for C6: a two-joint pose whose source is itself (as set up by
`clone`). -/
theorem c6_reset_behaviour_witness :
    ((Pose.mk
        (some (Pose.mk none
          [⟨"root", 0, -1, [], Transform.identityT, Transform.identityT⟩]
          Transform.identityT Transform.identityT))
        [⟨"root", 0, -1, [], Transform.identityT, Transform.identityT⟩]
        Transform.identityT Transform.identityT : Pose ℚ).srcPose
      = some (Pose.mk none
          [⟨"root", 0, -1, [], Transform.identityT, Transform.identityT⟩]
          Transform.identityT Transform.identityT)) ∧
    (∃ p', Pose.reset
        (Pose.mk
          (some (Pose.mk none
            [⟨"root", 0, -1, [], Transform.identityT, Transform.identityT⟩]
            Transform.identityT Transform.identityT))
          [⟨"root", 0, -1, [], Transform.identityT, Transform.identityT⟩]
          Transform.identityT Transform.identityT : Pose ℚ) = .ok p' ∧
      p'.srcPose = (Pose.mk
          (some (Pose.mk none
            [⟨"root", 0, -1, [], Transform.identityT, Transform.identityT⟩]
            Transform.identityT Transform.identityT))
          [⟨"root", 0, -1, [], Transform.identityT, Transform.identityT⟩]
          Transform.identityT Transform.identityT : Pose ℚ).srcPose ∧
      p'.rootOffset = Transform.identityT ∧
      p'.poseOffset = Transform.identityT ∧
      p'.joints.length = 1 ∧
      ∀ (i : Nat) (j : Joint ℚ),
        (Pose.mk
          (some (Pose.mk none
            [⟨"root", 0, -1, [], Transform.identityT, Transform.identityT⟩]
            Transform.identityT Transform.identityT))
          [⟨"root", 0, -1, [], Transform.identityT, Transform.identityT⟩]
          Transform.identityT Transform.identityT : Pose ℚ).joints[i]? = some j →
          ∃ sj, (Pose.mk none
              [⟨"root", 0, -1, [], Transform.identityT, Transform.identityT⟩]
              Transform.identityT Transform.identityT : Pose ℚ).joints[i]? = some sj ∧
            p'.joints[i]? = some { j with localT := sj.localT }) :=
  ⟨rfl,
    (c6_reset_behaviour _).2
      (Pose.mk none
        [⟨"root", 0, -1, [], Transform.identityT, Transform.identityT⟩]
        Transform.identityT Transform.identityT) rfl (by decide)⟩

/-- C6 counterexample: a pose whose `srcPose` is set but holds fewer joints
— `reset` neither reports the missing-source error nor copies; the copy
loop reads `undefined.local` and throws. -/
theorem c6_reset_counterexample :
    ((Pose.mk (some (Pose.mk none [] Transform.identityT Transform.identityT))
        [⟨"a", 0, -1, [], Transform.identityT, Transform.identityT⟩]
        Transform.identityT Transform.identityT : Pose ℚ).srcPose).isSome = true ∧
    Pose.reset
      (Pose.mk (some (Pose.mk none [] Transform.identityT Transform.identityT))
        [⟨"a", 0, -1, [], Transform.identityT, Transform.identityT⟩]
        Transform.identityT Transform.identityT : Pose ℚ)
      = .error "TypeError" :=
  ⟨rfl, rfl⟩

/-! Claim C7: `getWorld` on an invalid numeric index. -/

/-- C7 (code bug): on a one-joint pose, `getWorld(5)` does not return the
`out` transform unchanged — `joints[5]` is `undefined`, the guard
`joint === null` does not catch `undefined`, and `out_transform.copy(joint.local)`
throws a `TypeError`. The graceful branch is unreachable for numeric
indices. -/
theorem c7_getWorld_invalid_throws :
    Pose.getJoint
        (Pose.mk none
          [⟨"root", 0, -1, [], Transform.identityT, Transform.identityT⟩]
          Transform.identityT Transform.identityT : Pose ℚ) 5
      = JSRef.undefined ∧
    Pose.getWorld
        (Pose.mk none
          [⟨"root", 0, -1, [], Transform.identityT, Transform.identityT⟩]
          Transform.identityT Transform.identityT : Pose ℚ) 5
        Transform.identityT
      = .error "TypeError" ∧
    Pose.getWorld
        (Pose.mk none
          [⟨"root", 0, -1, [], Transform.identityT, Transform.identityT⟩]
          Transform.identityT Transform.identityT : Pose ℚ) (-2)
        Transform.identityT
      = .error "TypeError" :=
  ⟨rfl, rfl, rfl⟩

/-! Claim C5: frame property of the chain operators. -/

/-- A successful `setRot` changes at most the local rotation of the addressed
joint. -/
theorem setRot_frame {p p' : Pose α} {k : Int} {q : Quat α}
    (h : Pose.setRot p k q = .ok p') : MutatesAtMostRotAt p p' k := by
  obtain ⟨src, js, ro, po⟩ := p
  unfold Pose.setRot at h
  dsimp only [Pose.joints, Pose.srcPose, Pose.rootOffset, Pose.poseOffset] at h
  cases hlook : listGetInt js k with
  | none =>
    rw [hlook] at h
    exact Except.noConfusion h
  | some j =>
    rw [hlook] at h
    injection h with h2
    subst h2
    have hk : 0 ≤ k := by
      by_contra hneg
      simp [listGetInt, hneg] at hlook
    have hj : js[k.toNat]? = some j := by
      simpa [listGetInt, hk] using hlook
    dsimp only [MutatesAtMostRotAt, Pose.joints, Pose.srcPose, Pose.rootOffset,
      Pose.poseOffset]
    refine ⟨rfl, rfl, rfl, by simp, ?_, ?_⟩
    · intro i hi
      have hik : k.toNat ≠ i := by
        intro he
        apply hi
        omega
      exact List.getElem?_set_ne hik
    · intro j0 j' hj0 hj'
      rw [hj] at hj0
      have hj0e := Option.some.inj hj0
      subst hj0e
      rw [List.getElem?_set_self', hj] at hj'
      simp only [Option.map_eq_map, Option.map_some', Function.const_apply] at hj'
      have hj'e := Option.some.inj hj'
      subst hj'e
      exact ⟨rfl, rfl, rfl, rfl, rfl, rfl, rfl⟩

/-- C5 (confirmed): either chain operator called with angle exactly `0`
returns the retargeter unchanged; on any run that completes, either nothing
changed (the guard branches) or only the local rotation of the chain's first
joint changed — every other joint, and the first joint's local position and
scale, are untouched. Runs that throw mutate nothing, since `setRot` is the
only write and it comes last. -/
theorem c5_chain_ops_frame :
    (∀ (sqrtf sinf cosf : ℚ → ℚ) (op : ChainTwistAdditive ℚ)
        (rt rt' : Retargeter ℚ),
      ChainTwistAdditive.apply sqrtf sinf cosf op rt = .ok rt' →
      (op.angle = 0 → rt' = rt) ∧
      (rt' = rt ∨ ∃ rig ch itm0 pose pose',
        rt.tarRig = some rig ∧ rig.chains op.chainName = some ch ∧
        ch.head? = some itm0 ∧ rt.pose = some pose ∧
        rt'.tarRig = rt.tarRig ∧ rt'.pose = some pose' ∧
        MutatesAtMostRotAt pose pose' itm0.idx)) ∧
    (∀ (sinf cosf : ℚ → ℚ) (op : AxisAdditive ℚ) (rt rt' : Retargeter ℚ),
      AxisAdditive.apply sinf cosf op rt = .ok rt' →
      (op.angle = 0 → rt' = rt) ∧
      (rt' = rt ∨ ∃ rig ch itm0 pose pose',
        rt.tarRig = some rig ∧ rig.chains op.chainName = some ch ∧
        ch.head? = some itm0 ∧ rt.pose = some pose ∧
        rt'.tarRig = rt.tarRig ∧ rt'.pose = some pose' ∧
        MutatesAtMostRotAt pose pose' itm0.idx)) := by
  constructor
  · intro sqrtf sinf cosf op rt rt' h
    unfold ChainTwistAdditive.apply at h
    by_cases h0 : op.angle = 0
    · rw [if_pos h0] at h
      injection h with h2
      subst h2
      exact ⟨fun _ => rfl, Or.inl rfl⟩
    · rw [if_neg h0] at h
      refine ⟨fun he => absurd he h0, ?_⟩
      split at h
      · injection h with h2
        subst h2
        exact Or.inl rfl
      · rename_i rig htar
        split at h
        · exact Except.noConfusion h
        · rename_i ch hch
          split at h
          · injection h with h2
            subst h2
            exact Or.inl rfl
          · rename_i pose hpose
            split at h
            · rename_i itm0 itm1 hh hl
              split at h
              · exact Except.noConfusion h
              · rename_i ptran hgw
                split at h
                · exact Except.noConfusion h
                · rename_i cj hcj
                  split at h
                  · exact Except.noConfusion h
                  · rename_i etran hge
                    dsimp only at h
                    split at h
                    · exact Except.noConfusion h
                    · rename_i pose2 hsr
                      injection h with h2
                      subst h2
                      exact Or.inr ⟨rig, ch, itm0, pose, pose2, htar, hch,
                        hh, hpose, rfl, rfl, setRot_frame hsr⟩
            · exact Except.noConfusion h
  · intro sinf cosf op rt rt' h
    unfold AxisAdditive.apply at h
    by_cases h0 : op.angle = 0
    · rw [if_pos h0] at h
      injection h with h2
      subst h2
      exact ⟨fun _ => rfl, Or.inl rfl⟩
    · rw [if_neg h0] at h
      refine ⟨fun he => absurd he h0, ?_⟩
      split at h
      · exact Except.noConfusion h
      · rename_i rig htar
        split at h
        · exact Except.noConfusion h
        · rename_i ch hch
          split at h
          · exact Except.noConfusion h
          · rename_i pose hpose
            split at h
            · exact Except.noConfusion h
            · rename_i itm hh
              split at h
              · exact Except.noConfusion h
              · rename_i ptran hgw
                split at h
                · exact Except.noConfusion h
                · rename_i cj hcj
                  dsimp only at h
                  split at h
                  · rename_i hax
                    split at h
                    · exact Except.noConfusion h
                    · rename_i pose2 hsr
                      injection h with h2
                      subst h2
                      exact Or.inr ⟨rig, ch, itm, pose, pose2, htar, hch,
                        hh, hpose, rfl, rfl, setRot_frame hsr⟩
                  · injection h with h2
                    subst h2
                    exact Or.inl rfl

/-- Witness for C5 at angle zero on an empty retargeter. -/
theorem c5_chain_ops_frame_witness :
    (ChainTwistAdditive.apply (fun x => x) (fun x => x) (fun x => x)
        (⟨"armL", 0⟩ : ChainTwistAdditive ℚ) ⟨none, none⟩
      = .ok (⟨none, none⟩ : Retargeter ℚ)) ∧
    (AxisAdditive.apply (fun x => x) (fun x => x)
        (⟨"armL", "y", 0⟩ : AxisAdditive ℚ) ⟨none, none⟩
      = .ok (⟨none, none⟩ : Retargeter ℚ)) ∧
    ((⟨none, none⟩ : Retargeter ℚ) = ⟨none, none⟩) ∧
    ((⟨none, none⟩ : Retargeter ℚ) = ⟨none, none⟩) :=
  ⟨rfl, rfl,
    (c5_chain_ops_frame.1 (fun x => x) (fun x => x) (fun x => x)
      ⟨"armL", 0⟩ ⟨none, none⟩ ⟨none, none⟩ rfl).1 rfl,
    (c5_chain_ops_frame.2 (fun x => x) (fun x => x)
      ⟨"armL", "y", 0⟩ ⟨none, none⟩ ⟨none, none⟩ rfl).1 rfl⟩

/-! Claim C10: `clone` never leaves `srcPose` null. -/

/-- Cloning does not change the joint list (each joint is deep-copied
field by field). -/
theorem clone_joints (p : Pose α) : (Pose.clone p).joints = p.joints := by
  show p.joints.map Joint.clone = p.joints
  have h : Joint.clone = (id : Joint α → Joint α) := rfl
  rw [h, List.map_id]

/-- Offsets survive cloning. -/
theorem clone_offsets (p : Pose α) :
    (Pose.clone p).rootOffset = p.rootOffset ∧
    (Pose.clone p).poseOffset = p.poseOffset := ⟨rfl, rfl⟩

/-- Iterated clones of a root snapshot keep pointing at the root and keep
its joint list. -/
theorem cloneIter_srcPose {p : Pose α} (h : p.srcPose = none) (n : Nat) :
    (Pose.cloneIter p n).srcPose = some p ∧
    (Pose.cloneIter p n).joints = p.joints := by
  induction n with
  | zero =>
    refine ⟨?_, clone_joints p⟩
    show some (p.srcPose.getD p) = some p
    rw [h]
    rfl
  | succ n IH =>
    refine ⟨?_, ?_⟩
    · show some ((Pose.cloneIter p n).srcPose.getD _) = some p
      rw [IH.1]
      rfl
    · show ((Pose.cloneIter p n).joints.map Joint.clone) = p.joints
      have hj : Joint.clone = (id : Joint α → Joint α) := rfl
      rw [hj, List.map_id, IH.2]

/-- C10 (confirmed): `clone` always records a source — the cloned-from
pose's own source when it has one, the cloned-from pose itself otherwise.
Consequently any chain of clones of a root snapshot `p` points at `p`
itself, its `reset` never takes the missing-source error branch, and the
restore copies each local transform from the root snapshot. -/
theorem c10_clone_src_invariant (p : Pose ℚ) :
    (Pose.clone p).srcPose = some (p.srcPose.getD p) ∧
    (p.srcPose = none → ∀ n : Nat,
      (Pose.cloneIter p n).srcPose = some p ∧
      ∃ c', Pose.reset (Pose.cloneIter p n) = .ok c' ∧
        ∀ (i : Nat) (j : Joint ℚ),
          (Pose.cloneIter p n).joints[i]? = some j →
          ∃ sj, p.joints[i]? = some sj ∧
            c'.joints[i]? = some { j with localT := sj.localT }) := by
  refine ⟨rfl, ?_⟩
  intro h n
  obtain ⟨hsrc, hjoints⟩ := cloneIter_srcPose h n
  refine ⟨hsrc, ?_⟩
  obtain ⟨r, hr, hrlen, hrspec⟩ :=
    resetJoints_spec (Pose.cloneIter p n).joints p.joints (by rw [hjoints])
  refine ⟨.mk (Pose.cloneIter p n).srcPose r (Pose.cloneIter p n).rootOffset
    (Pose.cloneIter p n).poseOffset, ?_, ?_⟩
  · simp only [Pose.reset, hsrc, hr, Except.map]
  · intro i j hj
    exact hrspec i j hj

/-- Witness for C10 at a one-joint root snapshot, taking a clone of a clone. -/
theorem c10_clone_src_invariant_witness :
    ((Pose.mk none
        [⟨"root", 0, -1, [], Transform.identityT, Transform.identityT⟩]
        Transform.identityT Transform.identityT : Pose ℚ).srcPose = none) ∧
    ((Pose.cloneIter
        (Pose.mk none
          [⟨"root", 0, -1, [], Transform.identityT, Transform.identityT⟩]
          Transform.identityT Transform.identityT : Pose ℚ) 1).srcPose
      = some (Pose.mk none
          [⟨"root", 0, -1, [], Transform.identityT, Transform.identityT⟩]
          Transform.identityT Transform.identityT)) ∧
    ∃ c', Pose.reset (Pose.cloneIter
        (Pose.mk none
          [⟨"root", 0, -1, [], Transform.identityT, Transform.identityT⟩]
          Transform.identityT Transform.identityT : Pose ℚ) 1) = .ok c' ∧
      ∀ (i : Nat) (j : Joint ℚ),
        (Pose.cloneIter
          (Pose.mk none
            [⟨"root", 0, -1, [], Transform.identityT, Transform.identityT⟩]
            Transform.identityT Transform.identityT : Pose ℚ) 1).joints[i]?
          = some j →
        ∃ sj, (Pose.mk none
            [⟨"root", 0, -1, [], Transform.identityT, Transform.identityT⟩]
            Transform.identityT Transform.identityT : Pose ℚ).joints[i]?
            = some sj ∧
          c'.joints[i]? = some { j with localT := sj.localT } :=
  ⟨rfl,
    ((c10_clone_src_invariant
      (Pose.mk none
        [⟨"root", 0, -1, [], Transform.identityT, Transform.identityT⟩]
        Transform.identityT Transform.identityT)).2 rfl 1).1,
    ((c10_clone_src_invariant
      (Pose.mk none
        [⟨"root", 0, -1, [], Transform.identityT, Transform.identityT⟩]
        Transform.identityT Transform.identityT)).2 rfl 1).2⟩

/-- Witness for C1 at a two-joint identity pose. -/
theorem c1_getWorld_matches_updateWorld_witness :
    (Pose.mk none
      [⟨"a", 0, -1, [], Transform.identityT, Transform.identityT⟩,
       ⟨"b", 1, 0, [], Transform.identityT, Transform.identityT⟩]
      Transform.identityT Transform.identityT : Pose ℚ).wfParents ∧
    (Pose.mk none
      [⟨"a", 0, -1, [], Transform.identityT, Transform.identityT⟩,
       ⟨"b", 1, 0, [], Transform.identityT, Transform.identityT⟩]
      Transform.identityT Transform.identityT : Pose ℚ).niceAll ∧
    (Pose.getWorld
        (Pose.mk none
          [⟨"a", 0, -1, [], Transform.identityT, Transform.identityT⟩,
           ⟨"b", 1, 0, [], Transform.identityT, Transform.identityT⟩]
          Transform.identityT Transform.identityT : Pose ℚ) (-1)
        = .ok (Transform.fromMul
            (Pose.mk none
              [⟨"a", 0, -1, [], Transform.identityT, Transform.identityT⟩,
               ⟨"b", 1, 0, [], Transform.identityT, Transform.identityT⟩]
              Transform.identityT Transform.identityT : Pose ℚ).rootOffset
            (Pose.mk none
              [⟨"a", 0, -1, [], Transform.identityT, Transform.identityT⟩,
               ⟨"b", 1, 0, [], Transform.identityT, Transform.identityT⟩]
              Transform.identityT Transform.identityT : Pose ℚ).poseOffset) ∧
      ∃ js', Pose.updateWorld
          (Pose.mk none
            [⟨"a", 0, -1, [], Transform.identityT, Transform.identityT⟩,
             ⟨"b", 1, 0, [], Transform.identityT, Transform.identityT⟩]
            Transform.identityT Transform.identityT : Pose ℚ)
          = .ok (.mk
              (Pose.mk none
                [⟨"a", 0, -1, [], Transform.identityT, Transform.identityT⟩,
                 ⟨"b", 1, 0, [], Transform.identityT, Transform.identityT⟩]
                Transform.identityT Transform.identityT : Pose ℚ).srcPose js'
              (Pose.mk none
                [⟨"a", 0, -1, [], Transform.identityT, Transform.identityT⟩,
                 ⟨"b", 1, 0, [], Transform.identityT, Transform.identityT⟩]
                Transform.identityT Transform.identityT : Pose ℚ).rootOffset
              (Pose.mk none
                [⟨"a", 0, -1, [], Transform.identityT, Transform.identityT⟩,
                 ⟨"b", 1, 0, [], Transform.identityT, Transform.identityT⟩]
                Transform.identityT Transform.identityT : Pose ℚ).poseOffset) ∧
        js'.length = (Pose.mk none
            [⟨"a", 0, -1, [], Transform.identityT, Transform.identityT⟩,
             ⟨"b", 1, 0, [], Transform.identityT, Transform.identityT⟩]
            Transform.identityT Transform.identityT : Pose ℚ).joints.length ∧
        ∀ (i : Nat) (j' : Joint ℚ), js'[i]? = some j' →
          Pose.getWorld
            (Pose.mk none
              [⟨"a", 0, -1, [], Transform.identityT, Transform.identityT⟩,
               ⟨"b", 1, 0, [], Transform.identityT, Transform.identityT⟩]
              Transform.identityT Transform.identityT : Pose ℚ) (i : Int)
            = .ok j'.world) :=
  ⟨by decide,
   by simp [Pose.niceAll, Pose.rootOffset, Pose.poseOffset, Pose.joints,
     Transform.nice, Transform.identityT, Quat.normSq],
   c1_getWorld_matches_updateWorld
     (Pose.mk none
       [⟨"a", 0, -1, [], Transform.identityT, Transform.identityT⟩,
        ⟨"b", 1, 0, [], Transform.identityT, Transform.identityT⟩]
       Transform.identityT Transform.identityT) (by decide)
     (by simp [Pose.niceAll, Pose.rootOffset, Pose.poseOffset, Pose.joints,
       Transform.nice, Transform.identityT, Quat.normSq])⟩

/-- C1 counterexample: with a non-uniform root scale `(1, 2, 1)`, a child
rotated by `(0, 0, 3/5, 4/5)` and a grandchild at `(1, 0, 0)` (offsets
identity), `updateWorld` caches world position `y = 24/25` for the grandchild
while `getWorld(2)` walks up and returns `y = 48/25`: the left- and
right-associated products differ, so the claim fails on general poses. -/
theorem c1_world_mismatch_counterexample :
    (Pose.updateWorld (Pose.mk none
      [⟨"j0", 0, -1, [], ⟨⟨0, 0, 0, 1⟩, ⟨0, 0, 0⟩, ⟨1, 2, 1⟩⟩, Transform.identityT⟩,
       ⟨"j1", 1, 0, [], ⟨⟨0, 0, 3/5, 4/5⟩, ⟨0, 0, 0⟩, ⟨1, 1, 1⟩⟩, Transform.identityT⟩,
       ⟨"j2", 2, 1, [], ⟨⟨0, 0, 0, 1⟩, ⟨1, 0, 0⟩, ⟨1, 1, 1⟩⟩, Transform.identityT⟩]
      Transform.identityT Transform.identityT : Pose ℚ)).map
        (fun p' => (p'.joints[2]?).map (fun j => j.world.pos.y))
      = .ok (some (24/25)) ∧
    (Pose.getWorld (Pose.mk none
      [⟨"j0", 0, -1, [], ⟨⟨0, 0, 0, 1⟩, ⟨0, 0, 0⟩, ⟨1, 2, 1⟩⟩, Transform.identityT⟩,
       ⟨"j1", 1, 0, [], ⟨⟨0, 0, 3/5, 4/5⟩, ⟨0, 0, 0⟩, ⟨1, 1, 1⟩⟩, Transform.identityT⟩,
       ⟨"j2", 2, 1, [], ⟨⟨0, 0, 0, 1⟩, ⟨1, 0, 0⟩, ⟨1, 1, 1⟩⟩, Transform.identityT⟩]
      Transform.identityT Transform.identityT : Pose ℚ) 2 Transform.identityT).map
        (fun t => t.pos.y)
      = .ok (48/25) ∧
    ¬ approxEq (1/100000) ((24 : ℚ)/25) (48/25) := by
  refine ⟨?_, ?_, ?_⟩
  · norm_num [Pose.updateWorld, updateWorldGo, listGetInt, Pose.joints,
      Pose.rootOffset, Pose.poseOffset, Pose.srcPose, Transform.mul,
      Transform.fromMul, Transform.identityT, qMul, qTransform, Vec3.had,
      Vec3.addv, Except.map]
  · norm_num [Pose.getWorld, Pose.getJoint, Pose.walk, listGetInt, Pose.joints,
      Pose.rootOffset, Pose.poseOffset, Transform.pmul, Transform.fromMul,
      Transform.identityT, qMul, qTransform, Vec3.had, Vec3.addv, Except.map,
      show (2 : Int).toNat = 2 from rfl, show (1 : Int).toNat = 1 from rfl,
      show (0 : Int).toNat = 0 from rfl]
  · norm_num [approxEq, abs_le]

/-! Claim C9: degenerate swing `fromSwing(a, -a)`. Settled over `ℝ` with the
ambient `Math` functions instantiated as `Real.sqrt`, `Real.sin`, `Real.cos`
and `Real.pi`; in this model every branch is a total real-valued
computation, which is the exact-arithmetic reading of "never NaN". -/

/-- A quaternion with zero scalar part and a unit axis orthogonal to `a`
rotates `a` onto `-a` (a half-turn about that axis). -/
theorem fromQuat_flip (ux uy uz : α) (a : Vec3 α)
    (hu : ux * ux + uy * uy + uz * uz = 1)
    (hp : ux * a.x + uy * a.y + uz * a.z = 0) :
    Vec3.fromQuat ⟨ux, uy, uz, 0⟩ a = Vec3.neg a := by
  obtain ⟨ax, ay, az⟩ := a
  dsimp only at hp
  apply Vec3.ext_xyz
  · simp only [Vec3.fromQuat, Vec3.neg]
    linear_combination (-2 * ax) * hu + (2 * ux) * hp
  · simp only [Vec3.fromQuat, Vec3.neg]
    linear_combination (-2 * ay) * hu + (2 * uy) * hp
  · simp only [Vec3.fromQuat, Vec3.neg]
    linear_combination (-2 * az) * hu + (2 * uz) * hp

/-- The 180-degree branch of `fromSwing`: normalizing a non-zero axis
orthogonal to `a` and swinging by `Math.PI` yields a unit quaternion with
zero scalar part that rotates `a` onto `-a`. -/
theorem normAxisPi_spec (v a : Vec3 ℝ)
    (hperp : v.x * a.x + v.y * a.y + v.z * a.z = 0)
    (hvpos : 0 < v.x * v.x + v.y * v.y + v.z * v.z) :
    Quat.normSq (Quat.fromAxisAngle Real.sin Real.cos
        (Vec3.norm Real.sqrt v) Real.pi) = 1 ∧
    (Quat.fromAxisAngle Real.sin Real.cos (Vec3.norm Real.sqrt v) Real.pi).w
      = 0 ∧
    Vec3.fromQuat (Quat.fromAxisAngle Real.sin Real.cos
        (Vec3.norm Real.sqrt v) Real.pi) a = Vec3.neg a := by
  have hmpos : 0 < Real.sqrt (v.x * v.x + v.y * v.y + v.z * v.z) :=
    Real.sqrt_pos.mpr hvpos
  have hmne : Real.sqrt (v.x * v.x + v.y * v.y + v.z * v.z) ≠ 0 :=
    ne_of_gt hmpos
  have hm2 : Real.sqrt (v.x * v.x + v.y * v.y + v.z * v.z)
      * Real.sqrt (v.x * v.x + v.y * v.y + v.z * v.z)
      = v.x * v.x + v.y * v.y + v.z * v.z :=
    Real.mul_self_sqrt (le_of_lt hvpos)
  have hnorm : Vec3.norm Real.sqrt v
      = ⟨v.x * (1 / Real.sqrt (v.x * v.x + v.y * v.y + v.z * v.z)),
         v.y * (1 / Real.sqrt (v.x * v.x + v.y * v.y + v.z * v.z)),
         v.z * (1 / Real.sqrt (v.x * v.x + v.y * v.y + v.z * v.z))⟩ := by
    simp only [Vec3.norm]
    rw [if_neg hmne]
  have hs : Real.sin (Real.pi * (2 : ℝ)⁻¹) = 1 := by
    rw [show Real.pi * (2 : ℝ)⁻¹ = Real.pi / 2 by ring, Real.sin_pi_div_two]
  have hc : Real.cos (Real.pi * (2 : ℝ)⁻¹) = 0 := by
    rw [show Real.pi * (2 : ℝ)⁻¹ = Real.pi / 2 by ring, Real.cos_pi_div_two]
  have hq : Quat.fromAxisAngle Real.sin Real.cos (Vec3.norm Real.sqrt v) Real.pi
      = ⟨v.x * (1 / Real.sqrt (v.x * v.x + v.y * v.y + v.z * v.z)),
         v.y * (1 / Real.sqrt (v.x * v.x + v.y * v.y + v.z * v.z)),
         v.z * (1 / Real.sqrt (v.x * v.x + v.y * v.y + v.z * v.z)), 0⟩ := by
    rw [Quat.fromAxisAngle, hnorm]
    apply Quat.ext_xyzw <;> simp [hs, hc]
  have hu : v.x * (1 / Real.sqrt (v.x * v.x + v.y * v.y + v.z * v.z))
        * (v.x * (1 / Real.sqrt (v.x * v.x + v.y * v.y + v.z * v.z)))
      + v.y * (1 / Real.sqrt (v.x * v.x + v.y * v.y + v.z * v.z))
        * (v.y * (1 / Real.sqrt (v.x * v.x + v.y * v.y + v.z * v.z)))
      + v.z * (1 / Real.sqrt (v.x * v.x + v.y * v.y + v.z * v.z))
        * (v.z * (1 / Real.sqrt (v.x * v.x + v.y * v.y + v.z * v.z))) = 1 := by
    have h : v.x * (1 / Real.sqrt (v.x * v.x + v.y * v.y + v.z * v.z))
          * (v.x * (1 / Real.sqrt (v.x * v.x + v.y * v.y + v.z * v.z)))
        + v.y * (1 / Real.sqrt (v.x * v.x + v.y * v.y + v.z * v.z))
          * (v.y * (1 / Real.sqrt (v.x * v.x + v.y * v.y + v.z * v.z)))
        + v.z * (1 / Real.sqrt (v.x * v.x + v.y * v.y + v.z * v.z))
          * (v.z * (1 / Real.sqrt (v.x * v.x + v.y * v.y + v.z * v.z)))
        = (v.x * v.x + v.y * v.y + v.z * v.z)
          * (1 / (Real.sqrt (v.x * v.x + v.y * v.y + v.z * v.z)
            * Real.sqrt (v.x * v.x + v.y * v.y + v.z * v.z))) := by
      ring
    rw [h, hm2, mul_one_div, div_self (ne_of_gt hvpos)]
  refine ⟨?_, ?_, ?_⟩
  · rw [hq]
    simp only [Quat.normSq]
    linear_combination hu
  · rw [hq]
  · rw [hq]
    apply fromQuat_flip _ _ _ _ hu
    have h2 : v.x * (1 / Real.sqrt (v.x * v.x + v.y * v.y + v.z * v.z)) * a.x
        + v.y * (1 / Real.sqrt (v.x * v.x + v.y * v.y + v.z * v.z)) * a.y
        + v.z * (1 / Real.sqrt (v.x * v.x + v.y * v.y + v.z * v.z)) * a.z
        = (v.x * a.x + v.y * a.y + v.z * a.z)
          * (1 / Real.sqrt (v.x * v.x + v.y * v.y + v.z * v.z)) := by
      ring
    rw [h2, hperp, zero_mul]

/-- C9 (confirmed): for every unit vector `a`, `fromSwing(a, -a)` takes the
opposite-direction branch and produces an exactly-unit quaternion with zero
scalar part (a 180-degree rotation) that maps `a` onto `-a`; this includes
`a` parallel to the global X axis, where the first perpendicular-axis
fallback is degenerate and the global-Y fallback is used. -/
theorem c9_fromSwing_opposite (a : Vec3 ℝ)
    (ha : a.x * a.x + a.y * a.y + a.z * a.z = 1) :
    Quat.normSq (Quat.fromSwing Real.sqrt Real.sin Real.cos Real.pi a
      (Vec3.neg a)) = 1 ∧
    (Quat.fromSwing Real.sqrt Real.sin Real.cos Real.pi a (Vec3.neg a)).w = 0 ∧
    Vec3.fromQuat (Quat.fromSwing Real.sqrt Real.sin Real.cos Real.pi a
      (Vec3.neg a)) a = Vec3.neg a := by
  have hdot : Vec3.dot a (Vec3.neg a) = -1 := by
    simp only [Vec3.dot, Vec3.neg]
    linear_combination -ha
  have htmp : Vec3.fromCross ⟨-1, 0, 0⟩ a = (⟨0, a.z, -a.y⟩ : Vec3 ℝ) := by
    apply Vec3.ext_xyz <;> simp [Vec3.fromCross]
  have htmp2 : Vec3.fromCross ⟨0, 1, 0⟩ a = (⟨a.z, 0, -a.x⟩ : Vec3 ℝ) := by
    apply Vec3.ext_xyz <;> simp [Vec3.fromCross]
  have hbranch : Quat.fromSwing Real.sqrt Real.sin Real.cos Real.pi a
        (Vec3.neg a)
      = Quat.fromAxisAngle Real.sin Real.cos
          (Vec3.norm Real.sqrt
            (if Vec3.len Real.sqrt (Vec3.fromCross ⟨-1, 0, 0⟩ a) < 1 / 1000000
              then Vec3.fromCross ⟨0, 1, 0⟩ a
              else Vec3.fromCross ⟨-1, 0, 0⟩ a))
          Real.pi := by
    rw [Quat.fromSwing]
    rw [hdot]
    rw [if_pos (by norm_num : (-1 : ℝ) < -(999999 / 1000000))]
  by_cases hsmall :
      Vec3.len Real.sqrt (Vec3.fromCross ⟨-1, 0, 0⟩ a) < 1 / 1000000
  · rw [hbranch, if_pos hsmall, htmp2]
    rw [htmp] at hsmall
    simp only [Vec3.len] at hsmall
    have h1 : (0 : ℝ) * 0 + a.z * a.z + -a.y * -a.y < (1 / 1000000) ^ 2 :=
      (Real.sqrt_lt' (by norm_num)).mp hsmall
    apply normAxisPi_spec
    · dsimp only
      ring
    · dsimp only
      nlinarith [mul_self_nonneg a.y, mul_self_nonneg a.z]
  · rw [hbranch, if_neg hsmall, htmp]
    rw [htmp] at hsmall
    simp only [Vec3.len] at hsmall
    have hsum0 : (0 : ℝ) ≤ 0 * 0 + a.z * a.z + -a.y * -a.y := by
      nlinarith [mul_self_nonneg a.z, mul_self_nonneg a.y]
    rcases eq_or_lt_of_le hsum0 with heq | hlt
    · exfalso
      apply hsmall
      rw [← heq, Real.sqrt_zero]
      norm_num
    · apply normAxisPi_spec
      · dsimp only
        ring
      · exact hlt

/-- Witness for C9 at the unit vector `(1, 0, 0)` (the degenerate case for
the global-X fallback). -/
theorem c9_fromSwing_opposite_witness :
    ((⟨1, 0, 0⟩ : Vec3 ℝ).x * (⟨1, 0, 0⟩ : Vec3 ℝ).x
      + (⟨1, 0, 0⟩ : Vec3 ℝ).y * (⟨1, 0, 0⟩ : Vec3 ℝ).y
      + (⟨1, 0, 0⟩ : Vec3 ℝ).z * (⟨1, 0, 0⟩ : Vec3 ℝ).z = 1) ∧
    (Quat.normSq (Quat.fromSwing Real.sqrt Real.sin Real.cos Real.pi
      (⟨1, 0, 0⟩ : Vec3 ℝ) (Vec3.neg ⟨1, 0, 0⟩)) = 1 ∧
    (Quat.fromSwing Real.sqrt Real.sin Real.cos Real.pi
      (⟨1, 0, 0⟩ : Vec3 ℝ) (Vec3.neg ⟨1, 0, 0⟩)).w = 0 ∧
    Vec3.fromQuat (Quat.fromSwing Real.sqrt Real.sin Real.cos Real.pi
        (⟨1, 0, 0⟩ : Vec3 ℝ) (Vec3.neg ⟨1, 0, 0⟩)) ⟨1, 0, 0⟩
      = Vec3.neg ⟨1, 0, 0⟩) :=
  ⟨by simp, c9_fromSwing_opposite ⟨1, 0, 0⟩ (by simp)⟩

end M2M
